import Mathlib

/-!
Verification development for the generic-constraint subsystem implemented in
`lib/Sema/TypeCheckGeneric.cpp`.  The C++ code is shallowly embedded: the
type representation is an inductive tree, external collaborators (type
substitution, conformance lookup, subclass tests, `mapTypeIntoContext`) are
abstract function parameters collected in an environment record, and the
work-list algorithm of `TypeChecker::checkGenericArguments` is a fuel-indexed
executable function.  Diagnostic emission is reified as a list of events so
statements about what gets diagnosed can be proved.
-/

/-- Layout constraints (`LayoutConstraint` in the AST).  `isClass` is true for
the two class layout kinds, false for every other kind, mirroring
`LayoutConstraintInfo::isClass`. -/
inductive LayoutConstraint where
  | classLayout
  | nativeClassLayout
  | otherLayout (tag : Nat)
deriving DecidableEq, Repr

/-- `LayoutConstraint->isClass()`. -/
def LayoutConstraint.isClass : LayoutConstraint → Bool
  | .classLayout => true
  | .nativeClassLayout => true
  | .otherLayout _ => false

/-- Interface types, shallowly embedded.  `param` is `GenericTypeParamType`
(identity = depth/index), `depMember` a resolved `DependentMemberType`,
`unresolvedDepMember` a `DependentMemberType` still carrying only an
identifier, `protoTy` a `ProtocolType`, `nominal` an atomic nominal type,
`app` a type-application/function node used for structured types, `archetype`
an opaque result archetype (`OpaqueTypeArchetypeType`), and `errorTy` the
`ErrorType` sentinel. -/
inductive Ty where
  | param (depth index : Nat)
  | depMember (base : Ty) (assoc : Nat)
  | unresolvedDepMember (base : Ty) (name : Nat)
  | protoTy (p : Nat)
  | nominal (id : Nat)
  | app (f a : Ty)
  | archetype (id : Nat)
  | errorTy
deriving DecidableEq, Repr

/-- `Type::hasTypeParameter()`: the type contains a generic parameter or a
dependent member rooted in one. -/
def Ty.hasTypeParameter : Ty → Bool
  | .param _ _ => true
  | .depMember _ _ => true
  | .unresolvedDepMember _ _ => true
  | .app f a => f.hasTypeParameter || a.hasTypeParameter
  | _ => false

/-- `Type::hasError()`: the type contains the error sentinel. -/
def Ty.hasError : Ty → Bool
  | .errorTy => true
  | .depMember b _ => b.hasError
  | .unresolvedDepMember b _ => b.hasError
  | .app f a => f.hasError || a.hasError
  | _ => false

/-- `Type::isTypeParameter()`: a bare generic parameter or a chain of
dependent members rooted in one. -/
def Ty.isTypeParameter : Ty → Bool
  | .param _ _ => true
  | .depMember b _ => b.isTypeParameter
  | .unresolvedDepMember b _ => b.isTypeParameter
  | _ => false

/-- `Type::getRootGenericParam()` on a type parameter: strip the dependent
member chain down to the root generic parameter. -/
def Ty.rootGenericParam : Ty → Ty
  | .depMember b _ => b.rootGenericParam
  | .unresolvedDepMember b _ => b.rootGenericParam
  | t => t

/-- `type->is<GenericTypeParamType>()`. -/
def Ty.isBareGenericParam : Ty → Bool
  | .param _ _ => true
  | _ => false

/-- `RequirementKind`. -/
inductive RequirementKind where
  | conformance
  | superclass
  | sameType
  | layout
deriving DecidableEq, Repr

/-- A `Requirement`: `{kind, subject, constraint}`.  For `conformance` the
constraint is an interface identity (the protocol of the `ProtocolType`
second type); for `layout` it is a layout constraint; for the other two kinds
it is another type. -/
inductive Requirement where
  | conformance (first : Ty) (proto : Nat)
  | superclass (first second : Ty)
  | sameType (first second : Ty)
  | layout (first : Ty) (lc : LayoutConstraint)
deriving DecidableEq, Repr

/-- `Requirement::getKind()`. -/
def Requirement.kind : Requirement → RequirementKind
  | .conformance _ _ => .conformance
  | .superclass _ _ => .superclass
  | .sameType _ _ => .sameType
  | .layout _ _ => .layout

/-- `Requirement::getFirstType()`. -/
def Requirement.getFirst : Requirement → Ty
  | .conformance t _ => t
  | .superclass t _ => t
  | .sameType t _ => t
  | .layout t _ => t

/-- `Requirement::getSecondType()`, null for layout requirements (the
checker only reads the second type when `kind != RequirementKind::Layout`).
For a conformance requirement the second type is the `ProtocolType`. -/
def Requirement.getSecondTy : Requirement → Option Ty
  | .conformance _ p => some (.protoTy p)
  | .superclass _ b => some b
  | .sameType _ b => some b
  | .layout _ _ => none

/-- `Requirement::subst(substitutions, conformances, options)`: apply the
type-substitution callback to the requirement's subject (and, for superclass
and same-type requirements, to its constraint type); fails when any component
substitution fails.  The protocol of a conformance requirement and the layout
constraint of a layout requirement are left untouched, as in the AST
machinery. -/
def Requirement.substWith (f : Ty → Option Ty) : Requirement → Option Requirement
  | .conformance t p =>
    match f t with
    | some t' => some (.conformance t' p)
    | none => none
  | .superclass a b =>
    match f a, f b with
    | some a', some b' => some (.superclass a' b')
    | _, _ => none
  | .sameType a b =>
    match f a, f b with
    | some a', some b' => some (.sameType a' b')
    | _, _ => none
  | .layout t lc =>
    match f t with
    | some t' => some (.layout t' lc)
    | none => none

/-- A conformance as returned by `conformsToProtocol` (called with
`SkipConditionalRequirements`, so its conditional requirements are returned
unchecked for the caller to handle). -/
structure Conformance where
  conditionalRequirements : List Requirement
deriving DecidableEq, Repr

/-- `RequirementSet` of `checkGenericArguments`: a requirement list plus the
parent chain of conditional conformances (`ParentConditionalConformance` is
the pair of the constrained type and the satisfied interface). -/
structure RequirementSetM where
  requirements : List Requirement
  parents : List (Ty × Nat)
deriving DecidableEq, Repr

/-- `GenericRequirementsCheckListener`: may veto checking a requirement, or
take over diagnosis of an unsatisfied requirement. -/
structure ListenerM where
  shouldCheck : RequirementKind → Ty → Option Ty → Bool
  diagnoseUnsatisfied : Requirement → Ty → Option Ty → List (Ty × Nat) → Bool

/-- The external collaborators and call-site arguments of
`TypeChecker::checkGenericArguments`: diagnostic location validity,
the `owner` type used in the primary diagnostic, the substitution callback
(applied inside `Requirement::subst`), `DeclContext::mapTypeIntoContext`,
`conformsToProtocol`, `isExactSuperclassOf`, `isEqual`,
`satisfiesClassConstraint`, and the optional listener. -/
structure CheckEnv where
  locValid : Bool
  owner : Ty
  substFn : Ty → Option Ty
  mapIntoContext : Ty → Ty
  conformsTo : Ty → Nat → Option Conformance
  isExactSuperclassOf : Ty → Ty → Bool
  tyEqual : Ty → Ty → Bool
  satisfiesClassConstraint : Ty → Bool
  listener : Option ListenerM

/-- Identifiers of the primary diagnostics emitted by
`checkGenericArguments`. -/
inductive DiagId where
  | typeDoesNotConformOwner
  | typeIsNotAClass
  | typeDoesNotInherit
  | typesNotEqual
deriving DecidableEq, Repr

/-- Identifiers of the note diagnostics emitted by
`checkGenericArguments`. -/
inductive NoteId where
  | typeDoesNotInheritOrConformRequirement
  | anyObjectRequirement
  | typesNotEqualRequirement
deriving DecidableEq, Repr

/-- A reified diagnostic event: the primary diagnostic
`diagnose(loc, diagnostic, owner, firstType, secondType)`, the note
`diagnose(noteLoc, diagnosticNote, rawFirstType, rawSecondType, ...)`, and
one note per conditional-conformance frame from
`ParentConditionalConformance::diagnoseConformanceStack`.  (The note's third
argument, the `gatherGenericParamBindingsText` rendering string, is pure
formatting and not reified.) -/
inductive DiagEvent where
  | primary (d : DiagId) (owner : Ty) (firstT : Ty) (secondT : Option Ty)
  | note (n : NoteId) (rawFirst : Ty) (rawSecond : Option Ty)
  | stackNote (frame : Ty × Nat)
deriving DecidableEq, Repr

/-- Modelled from the spec: `ParentConditionalConformance::diagnoseConformanceStack`
is not part of the provided sources; per spec 4.4 it renders one diagnostic
note per conditional-conformance frame, innermost first, so the reversed
parent chain (the chain is stored outermost-first) is mapped to notes. -/
def diagnoseConformanceStack (parents : List (Ty × Nat)) : List DiagEvent :=
  parents.reverse.map DiagEvent.stackNote

/-- The substitution stage of the per-requirement loop body: a requirement
popped with an empty parent chain is substituted via `Requirement::subst`
(failure is reported to the caller as `none`); a requirement reached through
conditional-conformance expansion is already concrete and is kept as is. -/
def substStage (env : CheckEnv) (parents : List (Ty × Nat)) (rawReq : Requirement) :
    Option Requirement :=
  if parents.isEmpty then rawReq.substWith env.substFn else some rawReq

/-- `firstType = dc->mapTypeIntoContext(firstType)` applied only when the
type still has a type parameter, as in the source. -/
def mapCtx (env : CheckEnv) (t : Ty) : Ty :=
  if t.hasTypeParameter then env.mapIntoContext t else t

/-- `listener && !listener->shouldCheck(kind, firstType, secondType)`. -/
def listenerVetoes (env : CheckEnv) (k : RequirementKind) (firstT : Ty)
    (secondT : Option Ty) : Bool :=
  match env.listener with
  | none => false
  | some l => !(l.shouldCheck k firstT secondT)

/-- `listener && listener->diagnoseUnsatisfiedRequirement(rawReq, firstType,
secondType, current.Parents)`. -/
def listenerHandlesFailure (env : CheckEnv) (rawReq : Requirement) (firstT : Ty)
    (secondT : Option Ty) (parents : List (Ty × Nat)) : Bool :=
  match env.listener with
  | none => false
  | some l => l.diagnoseUnsatisfied rawReq firstT secondT parents

/-- Outcome of the kind dispatch (`switch (kind)`) of the loop body. -/
inductive DispatchOut where
  | satisfied (push : Option RequirementSetM)
  | topConformanceFailure
  | failed (d : DiagId) (n : NoteId)
deriving DecidableEq, Repr

/-- The `switch (kind)` dispatch of `checkGenericArguments`, applied to the
substituted-and-mapped requirement.  Conformance: a found conformance with
conditional requirements queues a new requirement set whose parent chain is
extended by `(firstType, proto)`; a failed lookup with an empty parent chain
is the early `return RequirementCheckResult::Failure` ("a failure at the top
level is diagnosed elsewhere"), and otherwise selects the conformance
diagnostics.  Layout: only a class layout constraint can fail, via
`satisfiesClassConstraint`.  Superclass: `isExactSuperclassOf`.  SameType:
`isEqual`. -/
def dispatch (env : CheckEnv) (parents : List (Ty × Nat)) (firstT : Ty)
    (secondT : Option Ty) : Requirement → DispatchOut
  | .conformance _ p =>
    match env.conformsTo firstT p with
    | some c =>
      if c.conditionalRequirements.isEmpty then .satisfied none
      else .satisfied (some ⟨c.conditionalRequirements, parents ++ [(firstT, p)]⟩)
    | none =>
      if parents.isEmpty then .topConformanceFailure
      else .failed .typeDoesNotConformOwner .typeDoesNotInheritOrConformRequirement
  | .layout _ lc =>
    if lc.isClass && !env.satisfiesClassConstraint firstT then
      .failed .typeIsNotAClass .anyObjectRequirement
    else .satisfied none
  | .superclass _ _ =>
    if env.isExactSuperclassOf (secondT.getD .errorTy) firstT then .satisfied none
    else .failed .typeDoesNotInherit .typeDoesNotInheritOrConformRequirement
  | .sameType _ _ =>
    if env.tyEqual firstT (secondT.getD .errorTy) then .satisfied none
    else .failed .typesNotEqual .typesNotEqualRequirement

/-- Outcome of one iteration of the inner `for (const auto &rawReq : ...)`
loop: a substitution failure (`valid = false; continue`), an error-type skip
(`valid = false; continue`), a satisfied/vetoed requirement optionally
queueing a conditional requirement set, or a requirement violation returning
`Failure` with the diagnostics it emits. -/
inductive ProcessOutcome where
  | substFail
  | errorSkip
  | ok (push : Option RequirementSetM)
  | violation (diags : List DiagEvent)
deriving DecidableEq, Repr

/-- The body of the per-requirement loop of `checkGenericArguments`
(TypeCheckGeneric.cpp lines 838-977): substitute top-level requirements, map
residual type parameters into the context, skip error types, let the
listener veto, dispatch on the kind, and on failure either let the listener
diagnose or emit the primary diagnostic, the requirement note with the raw
(unsubstituted) types, and the conditional-conformance stack notes, provided
the supplied location is valid.  (The `listener->satisfiedConformance`
callback on a satisfied top-level conformance is a pure notification with no
effect on control flow or result and is not reified.) -/
def processRequirement (env : CheckEnv) (parents : List (Ty × Nat))
    (rawReq : Requirement) : ProcessOutcome :=
  match substStage env parents rawReq with
  | none => .substFail
  | some req =>
    let firstT := mapCtx env req.getFirst
    let secondT := req.getSecondTy.map (mapCtx env)
    if firstT.hasError || (secondT.map Ty.hasError).getD false then .errorSkip
    else if listenerVetoes env req.kind firstT secondT then .ok none
    else
      match dispatch env parents firstT secondT req with
      | .satisfied push => .ok push
      | .topConformanceFailure => .violation []
      | .failed d n =>
        if listenerHandlesFailure env rawReq firstT secondT parents then .violation []
        else if env.locValid then
          .violation ([.primary d env.owner firstT secondT,
                       .note n rawReq.getFirst rawReq.getSecondTy]
                      ++ diagnoseConformanceStack parents)
        else .violation []

/-- `RequirementCheckResult`. -/
inductive RequirementCheckResult where
  | success
  | failure
  | substitutionFailure
deriving DecidableEq, Repr

/-- The observable outcome of a `checkGenericArguments` run: the returned
result, whether a requirement violation occurred (the early-`Failure`
return), how many substitution-failure/error-type skips set `valid = false`,
and the diagnostics emitted along the way. -/
structure CheckOutput where
  result : RequirementCheckResult
  violationOccurred : Bool
  substFailures : Nat
  diags : List DiagEvent
deriving DecidableEq, Repr

/-- The work-list loop of `checkGenericArguments`.  The pending list's head
is the requirement set currently being iterated; a set pushed while
processing it is inserted right behind the remainder of the current set,
which reproduces the LIFO `pendingReqs.push_back`/`pop_back_val` discipline
(the current set finishes first, then the most recently pushed set runs).
`fuel` bounds the number of processed requirements; the C++ loop needs no
bound because conformance acyclicity keeps the expansion finite. -/
def checkLoop (env : CheckEnv) :
    Nat → List RequirementSetM → Bool → Nat → List DiagEvent → Option CheckOutput
  | _, [], valid, sf, ds =>
    some ⟨if valid then .success else .substitutionFailure, false, sf, ds⟩
  | 0, _ :: _, _, _, _ => none
  | fuel + 1, ⟨[], _⟩ :: rest, valid, sf, ds => checkLoop env fuel rest valid sf ds
  | fuel + 1, ⟨r :: rs, parents⟩ :: rest, valid, sf, ds =>
    match processRequirement env parents r with
    | .substFail => checkLoop env fuel (⟨rs, parents⟩ :: rest) false (sf + 1) ds
    | .errorSkip => checkLoop env fuel (⟨rs, parents⟩ :: rest) false (sf + 1) ds
    | .ok none => checkLoop env fuel (⟨rs, parents⟩ :: rest) valid sf ds
    | .ok (some s) => checkLoop env fuel (⟨rs, parents⟩ :: s :: rest) valid sf ds
    | .violation vds => some ⟨.failure, true, sf, ds ++ vds⟩

/-- `TypeChecker::checkGenericArguments`: seed the work-list with the
top-level requirements and an empty parent chain, `valid = true`, and run
the loop. -/
def checkGenericArguments (env : CheckEnv) (requirements : List Requirement)
    (fuel : Nat) : Option CheckOutput :=
  checkLoop env fuel [⟨requirements, []⟩] true 0 []

/-- A concrete environment exercising the checker.  `nominal 0` conforms to
protocol `7` with two conditional requirements, the first of which
(`nominal 1 : 8`) fails its lookup and the second of which carries an error
type (so evaluating it would record a substitution-failure skip); no other
conformance holds; substituting `param 0 0` fails; everything else is the
identity/structural choice. -/
def envDemo : CheckEnv :=
  { locValid := true
    owner := .nominal 42
    substFn := fun t => if t = .param 0 0 then none else some t
    mapIntoContext := id
    conformsTo := fun t p =>
      if t = .nominal 0 ∧ p = 7 then
        some ⟨[.conformance (.nominal 1) 8, .conformance .errorTy 9]⟩
      else none
    isExactSuperclassOf := fun _ _ => false
    tyEqual := fun a b => decide (a = b)
    satisfiesClassConstraint := fun _ => false
    listener := none }

/-! ### checkReferencedGenericParams (TypeCheckGeneric.cpp lines 356-526) -/

/-- `SmallPtrSet::insert` on the list modelling the referenced set: append
the element when absent (membership is the observable; insertion order is
kept to make the model deterministic). -/
def insertIfAbsent (acc : List Ty) (t : Ty) : List Ty :=
  if t ∈ acc then acc else acc ++ [t]

/-- `ReferencedGenericTypeWalker::walkToTypePre`: a type without type
parameters is skipped with its children; a type parameter is collected
(canonically) without recursing into its children; any other type is walked
recursively. -/
def walkCollect (t : Ty) (acc : List Ty) : List Ty :=
  if ¬ t.hasTypeParameter then acc
  else if t.isTypeParameter then insertIfAbsent acc t
  else
    match t with
    | .app f a => walkCollect a (walkCollect f acc)
    | .depMember b _ => walkCollect b acc
    | .unresolvedDepMember b _ => walkCollect b acc
    | _ => acc

/-- The `switch (req.getKind())` of `reqTypesVisitor`: Superclass and
SameType requirements contribute their second type, Conformance and Layout
only their first. -/
def reqVisitorSecond : Requirement → Option Ty
  | .superclass _ b => some b
  | .sameType _ b => some b
  | _ => none

/-- The type parameters collected by a fresh walker over the types used in
a requirement (each walked only when it has a type parameter, as in the
source's null/`hasTypeParameter` guards). -/
def reqUsedTys (req : Requirement) : List Ty :=
  let w1 := if req.getFirst.hasTypeParameter then walkCollect req.getFirst [] else []
  match reqVisitorSecond req with
  | some s => if s.hasTypeParameter then walkCollect s w1 else w1
  | none => w1

/-- `reqTypesVisitor`: if at least one type used by the requirement has its
root generic parameter already referenced, every bare generic parameter used
by the requirement becomes referenced (dependent member types are not added,
because a requirement on a dependent member does not let the base parameter
be inferred); returns the updated set and whether a new parameter was
added. -/
def reqTypesVisitor (refs : List Ty) (req : Requirement) : List Ty × Bool :=
  let used := reqUsedTys req
  if used.any (fun t => t.rootGenericParam ∈ refs) then
    used.foldl
      (fun st t =>
        if t.isBareGenericParam then
          if t ∈ st.1 then st else (st.1 ++ [t], true)
        else st)
      (refs, false)
  else (refs, false)

/-- One pass of `FindReferencedGenericParamsInRequirements` over the whole
requirement list, accumulating whether any requirement added a new
referenced parameter. -/
def visitPass (reqs : List Requirement) (refs : List Ty) : List Ty × Bool :=
  reqs.foldl
    (fun st req =>
      let r := reqTypesVisitor st.1 req
      (r.1, st.2 || r.2))
    (refs, false)

/-- The fixed-point loop of `FindReferencedGenericParamsInRequirements`,
with explicit fuel.  The C++ `while (true)` needs no fuel because every
productive pass adds a bare generic parameter drawn from the finite set of
parameters used by the requirements; `closeRefs_stable` below proves the
fuel supplied by `crgpClosure` reaches the same fixed point. -/
def closeRefs : Nat → List Requirement → List Ty → List Ty
  | 0, _, refs => refs
  | n + 1, reqs, refs =>
    let r := visitPass reqs refs
    if r.2 then closeRefs n reqs r.1 else r.1

/-- All type occurrences used by the requirements (the insertable universe
of the fixed-point iteration). -/
def allUsedTys (reqs : List Requirement) : List Ty :=
  (reqs.map reqUsedTys).flatten

/-- Fuel that provably reaches the fixed point: one more than the number of
type occurrences used by all requirements. -/
def closureFuel (reqs : List Requirement) : Nat :=
  (allUsedTys reqs).length + 1

/-- The requirement closure of a referenced set: the result of the
fixed-point loop. -/
def crgpClosure (reqs : List Requirement) (refs : List Ty) : List Ty :=
  closeRefs (closureFuel reqs) reqs refs

/-- Termination measure of the fixed-point iteration: how many of the types
used by the requirements are not yet in the referenced set. -/
def crgpMissing (reqs : List Requirement) (refs : List Ty) : Nat :=
  ((allUsedTys reqs).toFinset.filter (fun t => t ∉ refs)).card

/-- The inputs of `checkReferencedGenericParams`: whether the declaration is
an accessor, whether it has its own generic parameter list, the formal
parameter plain types and result type of its `GenericFunctionType`, the
signature's generic parameters as (depth, index) pairs, the depth of the
declaration's own parameters (`genericParams->getParams().front()->getDepth()`),
and the signature's requirements. -/
structure CRGPInput where
  isAccessor : Bool
  hasGenericParams : Bool
  paramTypes : List Ty
  resultType : Ty
  sigParams : List (Nat × Nat)
  ownDepth : Nat
  sigRequirements : List Requirement

/-- The observable effects of `checkReferencedGenericParams`: the parameters
diagnosed as unreferenced (in signature order), and whether the
declaration's interface type was set to the error sentinel and the
declaration marked invalid. -/
structure CRGPOutput where
  diagnosed : List (Nat × Nat)
  interfaceTypeSetToError : Bool
  markedInvalid : Bool
deriving DecidableEq, Repr

/-- The final loop over the signature's generic parameters.  `fetched`
models the captured `requirements` `ArrayRef`: initially empty, set to the
signature's requirement list by the lazy
`FindReferencedGenericParamsInRequirements()` call, whose trigger condition
is `requirements.empty()` (so a signature without requirements re-triggers
the—then vacuous—closure). -/
def crgpLoop (sigReqs : List Requirement) (ownDepth : Nat) :
    List (Nat × Nat) → List Ty → List Requirement → List (Nat × Nat) →
    List (Nat × Nat)
  | [], _, _, acc => acc
  | (d, i) :: ps, refs, fetched, acc =>
    if d ≠ ownDepth then crgpLoop sigReqs ownDepth ps refs fetched acc
    else if Ty.param d i ∈ refs then crgpLoop sigReqs ownDepth ps refs fetched acc
    else if fetched.isEmpty then
      let refs2 := crgpClosure sigReqs refs
      if Ty.param d i ∈ refs2 then crgpLoop sigReqs ownDepth ps refs2 sigReqs acc
      else crgpLoop sigReqs ownDepth ps refs2 sigReqs (acc ++ [(d, i)])
    else crgpLoop sigReqs ownDepth ps refs fetched (acc ++ [(d, i)])

/-- The `paramsAndResultWalker` collection: walk every formal parameter
plain type, then the result type. -/
def directRefs (inp : CRGPInput) : List Ty :=
  walkCollect inp.resultType (inp.paramTypes.foldl (fun acc t => walkCollect t acc) [])

/-- `TypeChecker::checkReferencedGenericParams`: accessors are exempt; a
declaration without its own generic parameter list is skipped; otherwise
every signature parameter at the declaration's own depth that is neither
directly referenced nor reached by the lazily computed requirement closure
is diagnosed, and each diagnosis sets the interface type to the error
sentinel and marks the declaration invalid. -/
def checkReferencedGenericParams (inp : CRGPInput) : CRGPOutput :=
  if inp.isAccessor then ⟨[], false, false⟩
  else if ¬ inp.hasGenericParams then ⟨[], false, false⟩
  else
    let ds := crgpLoop inp.sigRequirements inp.ownDepth inp.sigParams
      (directRefs inp) [] []
    ⟨ds, !ds.isEmpty, !ds.isEmpty⟩

/-- The spec-side characterization of the diagnosed set: the signature
parameters at the declaration's own depth whose parameter type is not in
the requirement closure of the directly referenced set. -/
def unreferencedOwnDepth (ownDepth : Nat) (closed : List Ty)
    (ps : List (Nat × Nat)) : List (Nat × Nat) :=
  ps.filter (fun pi => decide (pi.1 = ownDepth) && decide (Ty.param pi.1 pi.2 ∉ closed))

/-- The transitive same-type chain scenario: `U = param 1 3` is directly
referenced in a formal parameter type; the requirements are
`T1 == T2.M`, `T2 == T3.N`, `T3 == U` for `T1..T3 = param 1 0 .. param 1 2`. -/
def inpChain : CRGPInput :=
  { isAccessor := false
    hasGenericParams := true
    paramTypes := [.param 1 3]
    resultType := .nominal 0
    sigParams := [(1, 0), (1, 1), (1, 2), (1, 3)]
    ownDepth := 1
    sigRequirements :=
      [.sameType (.param 1 0) (.depMember (.param 1 1) 0),
       .sameType (.param 1 1) (.depMember (.param 1 2) 1),
       .sameType (.param 1 2) (.param 1 3)] }

/-- A declaration with one generic parameter never mentioned anywhere. -/
def inpUnused : CRGPInput :=
  { isAccessor := false
    hasGenericParams := true
    paramTypes := [.nominal 5]
    resultType := .nominal 0
    sigParams := [(1, 0)]
    ownDepth := 1
    sigRequirements := [] }

/-! ### checkGenericEnvironment (TypeCheckGeneric.cpp lines 684-755) -/

/-- A generic signature as consulted by `checkGenericEnvironment`: its
identity (signatures are cached objects, and the fast path must return the
very same instance) and the depth of its last, deepest generic parameter
(`getGenericParams().back()->getDepth()`). -/
structure GenericSig where
  sigId : Nat
  lastParamDepth : Nat
deriving DecidableEq, Repr

/-- The extension-specific inputs: whether the extension has a trailing
where clause, and the extended nominal type's generic signature
(`getSelfNominalTypeDecl()->getGenericSignatureOfContext()`), `none` when
there is no nominal type or the nominal type has no generic signature. -/
structure ExtDeclModel where
  trailingWhereClause : Bool
  nominalSig : Option GenericSig
deriving DecidableEq, Repr

/-- `getExtendedTypeGenericDepth`: the depth of the extended type's last
generic parameter, or `static_cast<unsigned>(-1)` when there is no nominal
type or no signature. -/
def getExtendedTypeGenericDepth (e : ExtDeclModel) : Nat :=
  match e.nominalSig with
  | none => 2 ^ 32 - 1
  | some s => s.lastParamDepth

/-- The outcome of `checkGenericEnvironment`: whether a fresh signature
builder was run, and the signature whose generic environment is created. -/
structure CGEOutcome where
  ranBuilder : Bool
  sig : GenericSig
deriving DecidableEq, Repr

/-- `TypeChecker::checkGenericEnvironment`, restricted to the choice of
signature: when there is no extension, or requirement inference is
mandatory, or the extension has a trailing where clause, or the extended
type's generic depth differs from the innermost generic parameter depth, a
fresh builder run produces the signature (modelled as the `builtSig`
argument); otherwise the extended nominal type's existing signature is
reused verbatim.  (On the fast path the C++ dereferences the nominal type's
signature; the `getD` default is unreachable for real depths, which are
smaller than `unsigned(-1)`.) -/
def checkGenericEnvironment (ext : Option ExtDeclModel)
    (mustInferRequirements : Bool) (gpLastDepth : Nat) (builtSig : GenericSig) :
    CGEOutcome :=
  match ext with
  | none => ⟨true, builtSig⟩
  | some e =>
    if mustInferRequirements = true ∨ e.trailingWhereClause = true
        ∨ getExtendedTypeGenericDepth e ≠ gpLastDepth then
      ⟨true, builtSig⟩
    else
      ⟨false, e.nominalSig.getD ⟨0, 0⟩⟩

/-! ### getOrCreateOpaqueResultType (TypeCheckGeneric.cpp lines 167-307) -/

/-- The `ExistentialLayout` of a resolved existential constraint type: an
optional superclass, the protocols, and an optional layout constraint. -/
structure ExistentialLayoutModel where
  superclassBound : Option Ty
  protocols : List Nat
  layoutBound : Option LayoutConstraint
deriving DecidableEq, Repr

/-- The resolved constraint type of the `some`-type representation: either
a class (`getClassOrBoundGenericClass()` non-null) or an existential with
its layout. -/
inductive ConstraintTypeModel where
  | classConstraint (classTy : Ty)
  | existentialConstraint (l : ExistentialLayoutModel)
deriving DecidableEq, Repr

/-- The outcome of `validateType` on the constraint representation combined
with the class-or-existential check. -/
inductive ConstraintResolutionModel where
  | validationError
  | notClassOrExistential
  | resolved (c : ConstraintTypeModel)
deriving DecidableEq, Repr

/-- The originating declaration's properties consulted by
`getOrCreateOpaqueResultType`: whether it is a protocol requirement inside
a protocol, a previously manufactured result-type declaration if any, and
the enclosing context's generic signature if any. -/
structure OriginatingDeclModel where
  isProtocolRequirementInProtocolContext : Bool
  existingResultTypeDecl : Option Nat
  outerSig : Option GenericSig
deriving DecidableEq, Repr

/-- The builder interactions recorded while synthesizing the result type's
dedicated signature: the imported outer signature, the added generic
parameters and the added requirements, in call order. -/
structure OpaqueSigBuilder where
  importedSig : Option GenericSig
  addedParams : List (Nat × Nat)
  addedReqs : List Requirement
deriving DecidableEq, Repr

/-- One `builder.addRequirement(...)` call. -/
def OpaqueSigBuilder.addReq (b : OpaqueSigBuilder) (r : Requirement) :
    OpaqueSigBuilder :=
  { b with addedReqs := b.addedReqs ++ [r] }

/-- The observable result of `getOrCreateOpaqueResultType`: an error return
(protocol requirement, validation error or a non-class non-existential
constraint), reuse of a previously manufactured declaration, or a freshly
synthesized declaration with its generic parameter and builder trace. -/
inductive OpaqueResultModel where
  | errorResult
  | priorDecl (d : Nat)
  | synthesized (returnTypeParam : Nat × Nat) (trace : OpaqueSigBuilder)
deriving DecidableEq, Repr

/-- `TypeChecker::getOrCreateOpaqueResultType`: protocol requirements are
rejected; an existing result-type declaration is reused; otherwise the
constraint is resolved (errors propagate), the outer signature is imported,
one fresh generic parameter `(returnTypeDepth, 0)` is added with
`returnTypeDepth` one past the outer signature's deepest parameter (0 with
no outer signature), and the requirement set derived from the bound is
added: a single superclass requirement for a class bound, or — for an
existential bound — a superclass requirement for its superclass if any, a
conformance requirement per protocol, and a layout requirement for its
layout constraint if any. -/
def getOrCreateOpaqueResultType (decl : OriginatingDeclModel)
    (res : ConstraintResolutionModel) : OpaqueResultModel :=
  if decl.isProtocolRequirementInProtocolContext then .errorResult
  else
    match decl.existingResultTypeDecl with
    | some d => .priorDecl d
    | none =>
      match res with
      | .validationError => .errorResult
      | .notClassOrExistential => .errorResult
      | .resolved c =>
        let b0 : OpaqueSigBuilder := ⟨none, [], []⟩
        let b1 := match decl.outerSig with
          | some s => { b0 with importedSig := some s }
          | none => b0
        let returnTypeDepth := match decl.outerSig with
          | some s => s.lastParamDepth + 1
          | none => 0
        let rtp : Ty := .param returnTypeDepth 0
        let b2 := { b1 with addedParams := b1.addedParams ++ [(returnTypeDepth, 0)] }
        let b3 := match c with
          | .classConstraint t => b2.addReq (.superclass rtp t)
          | .existentialConstraint lay =>
            let ba := match lay.superclassBound with
              | some sc => b2.addReq (.superclass rtp sc)
              | none => b2
            let bb := lay.protocols.foldl
              (fun b p => b.addReq (.conformance rtp p)) ba
            match lay.layoutBound with
            | some lc => bb.addReq (.layout rtp lc)
            | none => bb
        .synthesized (returnTypeDepth, 0) b3

/-- The depth of the synthesized parameter, in closed form: one past the
outer signature's deepest parameter, or 0 without an outer signature. -/
def synthesizedParamDepth (outer : Option GenericSig) : Nat :=
  match outer with
  | some s => s.lastParamDepth + 1
  | none => 0

/-- The requirement list derived from the resolved bound, in closed form. -/
def boundRequirements (rtp : Ty) : ConstraintTypeModel → List Requirement
  | .classConstraint t => [.superclass rtp t]
  | .existentialConstraint lay =>
    (match lay.superclassBound with
     | some sc => [Requirement.superclass rtp sc]
     | none => []) ++
    lay.protocols.map (fun p => Requirement.conformance rtp p) ++
    (match lay.layoutBound with
     | some lc => [Requirement.layout rtp lc]
     | none => [])

/-! ### Canonicalization order-independence (spec 4.2) -/

/-- Injective structural key of a layout constraint. -/
def encodeLayout : LayoutConstraint → Nat
  | .classLayout => 0
  | .nativeClassLayout => 1
  | .otherLayout n => n + 2

/-- Injective structural key of a type. -/
def encodeTy : Ty → Nat
  | .param d i => 8 * Nat.pair d i
  | .depMember b a => 8 * Nat.pair (encodeTy b) a + 1
  | .unresolvedDepMember b n => 8 * Nat.pair (encodeTy b) n + 2
  | .protoTy p => 8 * p + 3
  | .nominal n => 8 * n + 4
  | .app f a => 8 * Nat.pair (encodeTy f) (encodeTy a) + 5
  | .archetype n => 8 * n + 6
  | .errorTy => 7

/-- Injective structural key of a requirement. -/
def encodeReq : Requirement → Nat
  | .conformance t p => 4 * Nat.pair (encodeTy t) p
  | .superclass a b => 4 * Nat.pair (encodeTy a) (encodeTy b) + 1
  | .sameType a b => 4 * Nat.pair (encodeTy a) (encodeTy b) + 2
  | .layout t lc => 4 * Nat.pair (encodeTy t) (encodeLayout lc) + 3

/-- The canonicalization order on requirements: compare structural keys. -/
def reqLE (a b : Requirement) : Prop := encodeReq a ≤ encodeReq b

instance : DecidableRel reqLE := fun _ _ => Nat.decLe _ _

/-- Preference category for the canonical representative of an equivalence
class (spec glossary: "prefer a bare parameter over a dependent-member type
over a concrete type"). -/
def prefCategory : Ty → Nat
  | .param _ _ => 0
  | .depMember _ _ => 1
  | .unresolvedDepMember _ _ => 1
  | _ => 2

/-- Injective preference key: category first, structural key as
tie-breaker, so the representative choice is deterministic and depends
only on which types belong to the class. -/
def prefKey (t : Ty) : Nat := Nat.pair (prefCategory t) (encodeTy t)

/-- The preference-minimal element of a member list — the class's
canonical representative (total, with a dummy result on the empty list,
which never occurs for a class). -/
def prefMin : List Ty → Ty
  | [] => .errorTy
  | t :: ts => ts.foldl (fun m u => if prefKey u < prefKey m then u else m) t

/-- A constraint attached to an equivalence class: a conformance to an
interface, a superclass bound, or a layout bound (spec 4.2: "for
Conformance/Superclass/Layout, attaches the constraint to the subject's
equivalence class"). -/
inductive ClassConstraint where
  | conf (p : Nat)
  | sup (s : Ty)
  | lay (lc : LayoutConstraint)
deriving DecidableEq, Repr

/-- The requirement expressed by an attached constraint on a given subject
type. -/
def reqOfConstraint (u : Ty) : ClassConstraint → Requirement
  | .conf p => .conformance u p
  | .sup s => .superclass u s
  | .lay lc => .layout u lc

/-- Modelled from the spec: a solver-internal equivalence class — "a set
of types known to be mutually same-type-constrained" — together with the
constraints attached to the class.  Both lists carry set semantics: only
membership is observable through canonicalization. -/
structure EquivClass where
  members : List Ty
  constraints : List ClassConstraint
deriving DecidableEq, Repr

/-- A fresh equivalence class containing only the given type. -/
def singletonClass (t : Ty) : EquivClass := ⟨[t], []⟩

/-- Union of two equivalence classes ("union-by-structure"): members and
attached constraints are merged. -/
def mergeClasses (c1 c2 : EquivClass) : EquivClass :=
  ⟨c1.members ++ c2.members, c1.constraints ++ c2.constraints⟩

/-- Modelled from the spec: the `GenericSignatureBuilder` internals are
not among the provided sources (only its call sites in
`checkGenericParamList` and elsewhere are).  Per spec 4.2 the builder
maintains equivalence classes of types under same-type constraints, with
the other requirement kinds attached to the subject's class. -/
structure SigBuilder where
  classes : List EquivClass
deriving DecidableEq, Repr

/-- The equivalence class currently containing a given type, if any. -/
def classOf (t : Ty) (cs : List EquivClass) : Option EquivClass :=
  cs.find? (fun c => decide (t ∈ c.members))

/-- `addGenericParameter(p)` (spec 4.2): registers a fresh equivalence
class containing only `p` (a no-op when `p` is already registered). -/
def SigBuilder.addGenericParameter (bld : SigBuilder) (p : Ty) : SigBuilder :=
  match classOf p bld.classes with
  | some _ => bld
  | none => ⟨bld.classes ++ [singletonClass p]⟩

/-- The subject's class (a fresh singleton when the subject is not yet
registered) with one more constraint attached. -/
def attachedClass (bld : SigBuilder) (t : Ty) (k : ClassConstraint) : EquivClass :=
  ⟨((classOf t bld.classes).getD (singletonClass t)).members,
   ((classOf t bld.classes).getD (singletonClass t)).constraints ++ [k]⟩

/-- The union of the two sides' classes (fresh singletons when a side is
not yet registered). -/
def mergedClass (bld : SigBuilder) (a b : Ty) : EquivClass :=
  mergeClasses ((classOf a bld.classes).getD (singletonClass a))
    ((classOf b bld.classes).getD (singletonClass b))

/-- Attach a constraint to the subject's equivalence class: the class is
replaced by the same class with the constraint added. -/
def SigBuilder.attachConstraint (bld : SigBuilder) (t : Ty) (k : ClassConstraint) :
    SigBuilder :=
  ⟨bld.classes.filter (fun c => decide (t ∉ c.members)) ++ [attachedClass bld t k]⟩

/-- One `builder->addRequirement(...)` call (spec 4.2): merges the
requirement into the existing equivalence classes — a same-type
requirement unions the two sides' classes (fresh singletons when either
side is unregistered), while a conformance, superclass or layout
requirement attaches its constraint to the subject's class. -/
def SigBuilder.addRequirement (bld : SigBuilder) : Requirement → SigBuilder
  | .sameType a b =>
    ⟨bld.classes.filter (fun c => decide (a ∉ c.members ∧ b ∉ c.members))
     ++ [mergedClass bld a b]⟩
  | .conformance t p => bld.attachConstraint t (.conf p)
  | .superclass t s => bld.attachConstraint t (.sup s)
  | .layout t lc => bld.attachConstraint t (.lay lc)

/-- Canonicalize one equivalence class (spec 4.2): every attached
constraint is re-expressed on the class's deterministic canonical
representative — so requirements implied transitively through same-type
constraints are dropped (given `A == B` and `A : P`, no separate `B : P`
survives) — and the class itself is rendered as one same-type requirement
per non-representative member. -/
def EquivClass.emit (c : EquivClass) : List Requirement :=
  c.constraints.map (reqOfConstraint (prefMin c.members))
  ++ (c.members.filter (fun m => decide (m ≠ prefMin c.members))).map
       (fun m => Requirement.sameType (prefMin c.members) m)

/-- `computeGenericSignature` of the modelled builder (spec 4.2):
canonicalize every equivalence class and emit the minimal requirement
sequence, deduplicated and in the fixed structural order. -/
def SigBuilder.computeGenericSignature (bld : SigBuilder) : List Requirement :=
  ((bld.classes.map EquivClass.emit).flatten.insertionSort reqLE).dedup

/-- Feed a sequence of `addRequirement` calls to a fresh builder. -/
def buildFrom (l : List Requirement) : SigBuilder :=
  l.foldl SigBuilder.addRequirement ⟨[]⟩

/-- The same-type edges contributed by a requirement list. -/
def stEdge (l : List Requirement) (a b : Ty) : Prop :=
  Requirement.sameType a b ∈ l

/-- The subject types mentioned by a requirement list — exactly the types
the build registers in some equivalence class. -/
def mentionedIn (l : List Requirement) (t : Ty) : Prop :=
  (∃ k, reqOfConstraint t k ∈ l) ∨ (∃ u, Requirement.sameType t u ∈ l) ∨
    (∃ u, Requirement.sameType u t ∈ l)

/-- Two types lie in a common equivalence class of the builder. -/
def relB (bld : SigBuilder) (x y : Ty) : Prop :=
  ∃ c ∈ bld.classes, x ∈ c.members ∧ y ∈ c.members

/-- A constraint is attached to the class containing a given type. -/
def attC (bld : SigBuilder) (t : Ty) (k : ClassConstraint) : Prop :=
  ∃ c ∈ bld.classes, t ∈ c.members ∧ k ∈ c.constraints

/-- The canonical representative of a type's class (the type itself when
it is unregistered). -/
def SigBuilder.repOf (bld : SigBuilder) (t : Ty) : Ty :=
  prefMin (((classOf t bld.classes).getD (singletonClass t)).members)

/-- Semantic characterization of a builder state reached from a
requirement list: classes are pairwise disjoint (as values) and
non-empty, co-membership is exactly the equivalence closure of the
same-type edges restricted to mentioned types, and a constraint is
attached to a type's class exactly when some equivalent type is its
subject in the list. -/
structure BuildGood (l : List Requirement) (bld : SigBuilder) : Prop where
  disjoint : ∀ c1 ∈ bld.classes, ∀ c2 ∈ bld.classes,
    (∃ t, t ∈ c1.members ∧ t ∈ c2.members) → c1 = c2
  nonempty : ∀ c ∈ bld.classes, c.members ≠ []
  relSpec : ∀ x y, relB bld x y ↔
    (mentionedIn l x ∧ mentionedIn l y ∧ Relation.EqvGen (stEdge l) x y)
  attSpec : ∀ t k, attC bld t k ↔
    ∃ u, reqOfConstraint u k ∈ l ∧ Relation.EqvGen (stEdge l) u t

/-! ### validateGenericFuncOrSubscriptSignature, closing assertion
(TypeCheckGeneric.cpp lines 528-667) -/

/-- `Type::findUnresolvedDependentMemberType()` as a Boolean: does the type
contain a dependent member that still carries only an identifier? -/
def findUnresolvedDepMember : Ty → Bool
  | .unresolvedDepMember _ _ => true
  | .depMember b _ => findUnresolvedDepMember b
  | .app f a => findUnresolvedDepMember f || findUnresolvedDepMember a
  | _ => false

/-- Modelled from the spec: interface-stage type resolution (the
`TypeResolution::forInterface` machinery of TypeCheckType.cpp, not among
the provided sources).  Per spec 4.3 the second pass is authoritative:
every dependent member still carrying only an identifier is resolved
against the finalized signature's associated types, and an unresolvable
member becomes the error sentinel. -/
def interfaceResolveTy (resolveAssoc : Nat → Option Nat) : Ty → Ty
  | .unresolvedDepMember b n =>
    match resolveAssoc n with
    | some a => .depMember (interfaceResolveTy resolveAssoc b) a
    | none => .errorTy
  | .depMember b a => .depMember (interfaceResolveTy resolveAssoc b) a
  | .app f a => .app (interfaceResolveTy resolveAssoc f)
      (interfaceResolveTy resolveAssoc a)
  | t => t

/-- The inputs of the final, interface-mode pass of
`validateGenericFuncOrSubscriptSignature`: whether the declaration is an
accessor (which inherits its storage's environment and returns before the
closing assertion), the structurally checked formal parameter and result
types, whether the result representation is an opaque return type, the
identity of the archetype the opaque-result path produces, and the
finalized signature's associated-type resolution. -/
structure VGFSInput where
  isAccessor : Bool
  paramTypes : List Ty
  resultType : Ty
  resultIsOpaqueRepr : Bool
  archetypeId : Nat
  resolveAssoc : Nat → Option Nat

/-- `computeType()` after the interface-mode pass: the interface type built
from the re-checked parameter types and result type (the
`GenericFunctionType` structure is modelled as iterated application). -/
def computeInterfaceType (inp : VGFSInput) : Ty :=
  (inp.paramTypes.map (interfaceResolveTy inp.resolveAssoc)).foldr Ty.app
    (if inp.resultIsOpaqueRepr then Ty.archetype inp.archetypeId
     else interfaceResolveTy inp.resolveAssoc inp.resultType)

/-- `TypeChecker::validateGenericFuncOrSubscriptSignature`, restricted to
the path reaching the closing assertion: accessors return early (`none`);
every other declaration re-checks its parameter list and result type in
interface mode, computes its interface type, and reaches the assertion
`!decl->getInterfaceType()->findUnresolvedDependentMemberType()`. -/
def validateGenericFuncOrSubscriptSignature (inp : VGFSInput) : Option Ty :=
  if inp.isAccessor then none
  else some (computeInterfaceType inp)

/-- A concrete declaration for the assertion witness: one parameter type
and a result type both containing unresolved dependent members, one of
which resolves and one of which does not. -/
def inpVGFS : VGFSInput :=
  { isAccessor := false
    paramTypes := [.unresolvedDepMember (.param 0 0) 0]
    resultType := .app (.nominal 1) (.unresolvedDepMember (.param 0 0) 3)
    resultIsOpaqueRepr := false
    archetypeId := 0
    resolveAssoc := fun n => if n = 0 then some 5 else none }

/-! ## Supporting lemmas about the requirement checker -/

/-- A requirement reached through conditional-conformance expansion (its
parent chain is non-empty) is passed through the substitution stage
unchanged. -/
theorem substStage_nonempty (env : CheckEnv) (parents : List (Ty × Nat))
    (r : Requirement) (h : parents ≠ []) : substStage env parents r = some r := by
  cases parents with
  | nil => exact absurd rfl h
  | cons a as => simp [substStage]

/-- A `ProtocolType` carries no type parameter, so `mapTypeIntoContext`
is not applied to it. -/
theorem mapCtx_protoTy (env : CheckEnv) (p : Nat) :
    mapCtx env (.protoTy p) = .protoTy p := by
  simp [mapCtx, Ty.hasTypeParameter]

/-- The substitution stage preserves the conformance shape and its
protocol. -/
theorem substStage_conformance_shape (env : CheckEnv) (parents : List (Ty × Nat))
    (t : Ty) (p : Nat) (req : Requirement)
    (h : substStage env parents (.conformance t p) = some req) :
    ∃ t', req = .conformance t' p := by
  unfold substStage at h
  by_cases hp : parents.isEmpty
  · simp only [hp, if_true] at h
    cases hs : env.substFn t with
    | none => simp [Requirement.substWith, hs] at h
    | some t' =>
      simp [Requirement.substWith, hs] at h
      first
      | exact ⟨t', h⟩
      | exact ⟨t', h.symm⟩
  · simp only [hp, if_false] at h
    exact ⟨t, by injection h with h; exact h.symm⟩

/-- The substitution stage preserves the layout shape and its layout
constraint. -/
theorem substStage_layout_shape (env : CheckEnv) (parents : List (Ty × Nat))
    (t : Ty) (lc : LayoutConstraint) (req : Requirement)
    (h : substStage env parents (.layout t lc) = some req) :
    ∃ t', req = .layout t' lc := by
  unfold substStage at h
  by_cases hp : parents.isEmpty
  · simp only [hp, if_true] at h
    cases hs : env.substFn t with
    | none => simp [Requirement.substWith, hs] at h
    | some t' =>
      simp [Requirement.substWith, hs] at h
      first
      | exact ⟨t', h⟩
      | exact ⟨t', h.symm⟩
  · simp only [hp, if_false] at h
    exact ⟨t, by injection h with h; exact h.symm⟩

/-- Classification invariant of the work-list loop: assuming the running
`valid` flag agrees with "no substitution failures recorded yet", a
completed run returns `Success` iff no substitution failure and no
violation occurred, and `SubstitutionFailure` iff a substitution failure
but no violation occurred. -/
theorem checkLoop_classification (env : CheckEnv) :
    ∀ (fuel : Nat) (pending : List RequirementSetM) (valid : Bool) (sf : Nat)
      (ds : List DiagEvent) (out : CheckOutput),
      valid = (sf == 0) →
      checkLoop env fuel pending valid sf ds = some out →
      ((out.result = .success ↔ (out.substFailures = 0 ∧ out.violationOccurred = false)) ∧
       (out.result = .substitutionFailure ↔
          (out.substFailures ≠ 0 ∧ out.violationOccurred = false))) := by
  intro fuel
  induction fuel with
  | zero =>
    intro pending valid sf ds out hv hrun
    cases pending with
    | nil =>
      simp only [checkLoop] at hrun
      cases hrun
      subst hv
      cases sf <;> simp_all
    | cons s rest =>
      simp only [checkLoop] at hrun
      exact Option.noConfusion hrun
  | succ n ih =>
    intro pending valid sf ds out hv hrun
    cases pending with
    | nil =>
      simp only [checkLoop] at hrun
      cases hrun
      subst hv
      cases sf <;> simp_all
    | cons s rest =>
      obtain ⟨reqs, parents⟩ := s
      cases reqs with
      | nil =>
        simp only [checkLoop] at hrun
        exact ih rest valid sf ds out hv hrun
      | cons r rs =>
        simp only [checkLoop] at hrun
        cases hp : processRequirement env parents r with
        | substFail =>
          rw [hp] at hrun
          exact ih (⟨rs, parents⟩ :: rest) false (sf + 1) ds out (by simp) hrun
        | errorSkip =>
          rw [hp] at hrun
          exact ih (⟨rs, parents⟩ :: rest) false (sf + 1) ds out (by simp) hrun
        | ok push =>
          rw [hp] at hrun
          cases push with
          | none => exact ih (⟨rs, parents⟩ :: rest) valid sf ds out hv hrun
          | some s' => exact ih (⟨rs, parents⟩ :: s' :: rest) valid sf ds out hv hrun
        | violation vds =>
          rw [hp] at hrun
          cases hrun
          simp

/-! ## Claim theorems about `checkGenericArguments` -/

/-- C1 (amended).  A top-level `Conformance` requirement that fails makes the
whole check return `Failure` immediately — independently of the remaining
requirements of the current set and of every other pending set, and without
emitting any diagnostic here (a top-level failure is diagnosed elsewhere).
A failure of a nested (conditional) requirement likewise returns `Failure`
immediately: requirements after the failing one are not evaluated, and the
emitted diagnostics are exactly the failing requirement's own.  (Requirements
queued before the failing set — in particular top-level requirements that
follow the outer conformance — have already been evaluated, because a pushed
conditional set runs only after the current set is finished, which the third
conjunct states.) -/
theorem checkArgs_requirement_failure_short_circuits (env : CheckEnv) :
    (∀ (t : Ty) (p : Nat) (t' : Ty) (rs : List Requirement)
       (rest : List RequirementSetM) (valid : Bool) (sf fuel : Nat)
       (ds : List DiagEvent),
       env.substFn t = some t' →
       (mapCtx env t').hasError = false →
       env.listener = none →
       env.conformsTo (mapCtx env t') p = none →
       checkLoop env (fuel + 1) (⟨.conformance t p :: rs, []⟩ :: rest) valid sf ds
         = some ⟨.failure, true, sf, ds⟩) ∧
    (∀ (r : Requirement) (rs : List Requirement) (parents : List (Ty × Nat))
       (rest : List RequirementSetM) (valid : Bool) (sf fuel : Nat)
       (ds vds : List DiagEvent),
       processRequirement env parents r = .violation vds →
       checkLoop env (fuel + 1) (⟨r :: rs, parents⟩ :: rest) valid sf ds
         = some ⟨.failure, true, sf, ds ++ vds⟩) ∧
    (∀ (r : Requirement) (rs : List Requirement) (parents : List (Ty × Nat))
       (s : RequirementSetM) (rest : List RequirementSetM) (valid : Bool)
       (sf fuel : Nat) (ds : List DiagEvent),
       processRequirement env parents r = .ok (some s) →
       checkLoop env (fuel + 1) (⟨r :: rs, parents⟩ :: rest) valid sf ds
         = checkLoop env fuel (⟨rs, parents⟩ :: s :: rest) valid sf ds) := by
  refine ⟨?_, ?_, ?_⟩
  · intro t p t' rs rest valid sf fuel ds hsub hnoerr hlst hconf
    have hpr : processRequirement env [] (.conformance t p) = .violation [] := by
      simp [processRequirement, substStage, Requirement.substWith, hsub,
            Requirement.getFirst, Requirement.getSecondTy, mapCtx_protoTy,
            Ty.hasError, hnoerr, listenerVetoes, hlst, dispatch, hconf]
    simp [checkLoop, hpr]
  · intro r rs parents rest valid sf fuel ds vds hpr
    simp [checkLoop, hpr]
  · intro r rs parents s rest valid sf fuel ds hpr
    simp [checkLoop, hpr]

/-- C1 counterexample to the claim as stated.  In `envDemo`, `nominal 0`
conforms to protocol `7` with two conditional requirements; the first
(`nominal 1 : 8`) is violated and the second (`errorTy : 9`) would be
recorded as a substitution-failure skip if evaluated.  The run returns
`Failure` with `substFailures = 0` and diagnostics mentioning only the first
conditional requirement: later requirements of the nested set were *not*
evaluated, no further sub-diagnostics were collected, and the primary
message is the innermost violated requirement's, not a top-level one —
contradicting "later requirements still evaluated so that sub-diagnostics
are collected and the primary message remains the top-level one".  The final
conjunct shows the skipped second requirement would indeed have recorded a
substitution-failure skip had it been reached. -/
theorem checkArgs_nested_failure_counterexample :
    checkGenericArguments envDemo [.conformance (.nominal 0) 7] 10
      = some ⟨.failure, true, 0,
              [.primary .typeDoesNotConformOwner (.nominal 42) (.nominal 1)
                 (some (.protoTy 8)),
               .note .typeDoesNotInheritOrConformRequirement (.nominal 1)
                 (some (.protoTy 8)),
               .stackNote (.nominal 0, 7)]⟩ ∧
    processRequirement envDemo [(.nominal 0, 7)] (.conformance .errorTy 9)
      = .errorSkip := by
  exact ⟨rfl, rfl⟩

/-- C1 witness: the short-circuit theorem applied to `envDemo` at a concrete
failing top-level conformance (`nominal 9 : 7` has no conformance) followed
by another requirement, and at a concrete nested violation. -/
theorem checkArgs_requirement_failure_short_circuits_witness :
    checkLoop envDemo 5
        [⟨[.conformance (.nominal 9) 7, .sameType (.nominal 1) (.nominal 2)], []⟩]
        true 0 []
      = some ⟨.failure, true, 0, []⟩ ∧
    checkLoop envDemo 5 [⟨[.conformance (.nominal 1) 8], [(.nominal 0, 7)]⟩]
        true 0 []
      = some ⟨.failure, true, 0,
              [.primary .typeDoesNotConformOwner (.nominal 42) (.nominal 1)
                 (some (.protoTy 8)),
               .note .typeDoesNotInheritOrConformRequirement (.nominal 1)
                 (some (.protoTy 8)),
               .stackNote (.nominal 0, 7)]⟩ := by
  constructor
  · exact (checkArgs_requirement_failure_short_circuits envDemo).1
      (.nominal 9) 7 (.nominal 9) [.sameType (.nominal 1) (.nominal 2)] [] true 0 4 []
      rfl rfl rfl rfl
  · exact ((checkArgs_requirement_failure_short_circuits envDemo).2.1
      (.conformance (.nominal 1) 8) [] [(.nominal 0, 7)] [] true 0 4 [] _ rfl)

/-- C2.  A requirement whose substitution produces no type, or whose
substituted sides carry an error type, does not stop the check: the loop
records the failure (`valid = false`, counter incremented) and continues
with the remaining requirements (second and third conjuncts).  A completed
run returns `Success` iff no substitution failure and no requirement
violation occurred, and `SubstitutionFailure` iff at least one substitution
failure and no violation occurred (first conjunct). -/
theorem checkArgs_result_classification :
    (∀ (env : CheckEnv) (reqs : List Requirement) (fuel : Nat) (out : CheckOutput),
       checkGenericArguments env reqs fuel = some out →
       ((out.result = .success ↔
           (out.substFailures = 0 ∧ out.violationOccurred = false)) ∧
        (out.result = .substitutionFailure ↔
           (out.substFailures ≠ 0 ∧ out.violationOccurred = false)))) ∧
    (∀ (env : CheckEnv) (r : Requirement) (rs : List Requirement)
       (rest : List RequirementSetM) (parents : List (Ty × Nat)) (valid : Bool)
       (sf fuel : Nat) (ds : List DiagEvent),
       processRequirement env parents r = .substFail →
       checkLoop env (fuel + 1) (⟨r :: rs, parents⟩ :: rest) valid sf ds
         = checkLoop env fuel (⟨rs, parents⟩ :: rest) false (sf + 1) ds) ∧
    (∀ (env : CheckEnv) (r : Requirement) (rs : List Requirement)
       (rest : List RequirementSetM) (parents : List (Ty × Nat)) (valid : Bool)
       (sf fuel : Nat) (ds : List DiagEvent),
       processRequirement env parents r = .errorSkip →
       checkLoop env (fuel + 1) (⟨r :: rs, parents⟩ :: rest) valid sf ds
         = checkLoop env fuel (⟨rs, parents⟩ :: rest) false (sf + 1) ds) := by
  refine ⟨?_, ?_, ?_⟩
  · intro env reqs fuel out hrun
    exact checkLoop_classification env fuel [⟨reqs, []⟩] true 0 [] out (by simp) hrun
  · intro env r rs rest parents valid sf fuel ds hpr
    simp [checkLoop, hpr]
  · intro env r rs rest parents valid sf fuel ds hpr
    simp [checkLoop, hpr]

/-- C2 witness: a run of `envDemo` in which the only requirement's
substitution fails returns `SubstitutionFailure` with one recorded failure,
and the classification and continuation equations hold at that input. -/
theorem checkArgs_result_classification_witness :
    checkGenericArguments envDemo [.sameType (.param 0 0) (.nominal 1)] 10
      = some ⟨.substitutionFailure, false, 1, []⟩ ∧
    ((.substitutionFailure : RequirementCheckResult) = .success ↔
       ((1 : Nat) = 0 ∧ false = false)) ∧
    ((.substitutionFailure : RequirementCheckResult) = .substitutionFailure ↔
       ((1 : Nat) ≠ 0 ∧ false = false)) ∧
    checkLoop envDemo 10 [⟨[.sameType (.param 0 0) (.nominal 1)], []⟩] true 0 []
      = checkLoop envDemo 9 [⟨[], []⟩] false 1 [] := by
  have h1 : checkGenericArguments envDemo [.sameType (.param 0 0) (.nominal 1)] 10
      = some ⟨.substitutionFailure, false, 1, []⟩ := rfl
  have h2 := (checkArgs_result_classification.1 envDemo
      [.sameType (.param 0 0) (.nominal 1)] 10 ⟨.substitutionFailure, false, 1, []⟩ h1)
  have h3 := checkArgs_result_classification.2.1 envDemo
      (.sameType (.param 0 0) (.nominal 1)) [] [] [] true 0 9 [] rfl
  exact ⟨h1, h2.1, h2.2, h3⟩

/-- C3.  First conjunct: a `Conformance` requirement satisfied by a
conformance carrying conditional requirements makes the loop body queue a
new requirement set whose requirements are those conditional requirements
and whose parent chain is the current chain extended by the pair of the
substituted (and context-mapped) subject type and the interface.  Second
conjunct: a requirement popped from a set with a non-empty parent chain is
checked without applying the substitution function — the outcome is
identical for every substitution callback. -/
theorem checkArgs_conditional_expansion (env : CheckEnv) :
    (∀ (parents : List (Ty × Nat)) (t t' : Ty) (p : Nat) (c : Conformance),
       substStage env parents (.conformance t p) = some (.conformance t' p) →
       (mapCtx env t').hasError = false →
       listenerVetoes env .conformance (mapCtx env t') (some (.protoTy p)) = false →
       env.conformsTo (mapCtx env t') p = some c →
       c.conditionalRequirements ≠ [] →
       processRequirement env parents (.conformance t p)
         = .ok (some ⟨c.conditionalRequirements,
                      parents ++ [(mapCtx env t', p)]⟩)) ∧
    (∀ (f : Ty → Option Ty) (parents : List (Ty × Nat)) (r : Requirement),
       parents ≠ [] →
       processRequirement { env with substFn := f } parents r
         = processRequirement env parents r) := by
  constructor
  · intro parents t t' p c hsub hnoerr hveto hconf hcond
    simp [processRequirement, hsub, Requirement.getFirst, Requirement.getSecondTy,
          mapCtx_protoTy, Ty.hasError, hnoerr, Requirement.kind, hveto,
          dispatch, hconf, hcond]
  · intro f parents r hne
    have h1 : substStage { env with substFn := f } parents r = some r :=
      substStage_nonempty _ parents r hne
    have h2 : substStage env parents r = some r := substStage_nonempty env parents r hne
    have hm : mapCtx { env with substFn := f } = mapCtx env := by
      funext t; simp [mapCtx]
    have hv : ∀ k t s, listenerVetoes { env with substFn := f } k t s
        = listenerVetoes env k t s := by
      intro k t s; simp [listenerVetoes]
    have hh : ∀ rq t s ps, listenerHandlesFailure { env with substFn := f } rq t s ps
        = listenerHandlesFailure env rq t s ps := by
      intro rq t s ps; simp [listenerHandlesFailure]
    have hd : ∀ ft st rq, dispatch { env with substFn := f } parents ft st rq
        = dispatch env parents ft st rq := by
      intro ft st rq; cases rq <;> simp [dispatch]
    simp only [processRequirement, h1, h2, hm, hv, hh, hd]

/-- C3 witness: in `envDemo` the top-level conformance `nominal 0 : 7` is
satisfied with two conditional requirements and queues them under the
extended parent chain, and the nested outcome of a requirement is unchanged
when the substitution callback is replaced by one that always fails. -/
theorem checkArgs_conditional_expansion_witness :
    processRequirement envDemo [] (.conformance (.nominal 0) 7)
      = .ok (some ⟨[.conformance (.nominal 1) 8, .conformance .errorTy 9],
                   [(.nominal 0, 7)]⟩) ∧
    processRequirement { envDemo with substFn := fun _ => none }
        [(.nominal 0, 7)] (.conformance (.nominal 1) 8)
      = processRequirement envDemo [(.nominal 0, 7)] (.conformance (.nominal 1) 8) := by
  constructor
  · exact (checkArgs_conditional_expansion envDemo).1 [] (.nominal 0) (.nominal 0) 7
      ⟨[.conformance (.nominal 1) 8, .conformance .errorTy 9]⟩
      rfl rfl rfl rfl (by decide)
  · exact (checkArgs_conditional_expansion envDemo).2 (fun _ => none)
      [(.nominal 0, 7)] (.conformance (.nominal 1) 8) (by decide)

/-- C4.  A requirement reached through conditional-conformance expansion
(non-empty parent chain) whose kind dispatch fails makes the check return
`Failure` immediately.  If the supplied diagnostic location is valid, the
emitted events are exactly: the primary diagnostic carrying the innermost
violated requirement's own (substituted, context-mapped) types — not the
outer conformance —, the note carrying its raw types, and one stack note
per parent-chain frame, innermost first; the frame list is non-empty (length
at least 1).  If the location is invalid, `Failure` is still returned and no
diagnostic event is emitted.  (No listener is installed; a listener may
take over diagnosis, which the claim does not consider.) -/
theorem checkArgs_nested_failure_diagnostics (env : CheckEnv) :
    ∀ (r : Requirement) (rs : List Requirement) (parents : List (Ty × Nat))
      (rest : List RequirementSetM) (valid : Bool) (sf fuel : Nat)
      (ds : List DiagEvent) (d : DiagId) (n : NoteId),
      parents ≠ [] →
      env.listener = none →
      (mapCtx env r.getFirst).hasError = false →
      ((r.getSecondTy.map (mapCtx env)).map Ty.hasError).getD false = false →
      dispatch env parents (mapCtx env r.getFirst) (r.getSecondTy.map (mapCtx env)) r
        = .failed d n →
      checkLoop env (fuel + 1) (⟨r :: rs, parents⟩ :: rest) valid sf ds
        = some ⟨.failure, true, sf,
                ds ++ (if env.locValid then
                        [.primary d env.owner (mapCtx env r.getFirst)
                           (r.getSecondTy.map (mapCtx env)),
                         .note n r.getFirst r.getSecondTy]
                        ++ parents.reverse.map DiagEvent.stackNote
                       else [])⟩ ∧
      parents.reverse.map DiagEvent.stackNote ≠ [] := by
  intro r rs parents rest valid sf fuel ds d n hne hlst hferr hserr hdisp
  have hsub : substStage env parents r = some r := substStage_nonempty env parents r hne
  have hpr : processRequirement env parents r
      = .violation (if env.locValid then
                     [.primary d env.owner (mapCtx env r.getFirst)
                        (r.getSecondTy.map (mapCtx env)),
                      .note n r.getFirst r.getSecondTy]
                     ++ parents.reverse.map DiagEvent.stackNote
                    else []) := by
    have hserr' : (Option.map (Ty.hasError ∘ mapCtx env) r.getSecondTy).getD false
        = false := by
      rw [← Option.map_map]; exact hserr
    have hlv : listenerVetoes env r.kind (mapCtx env r.getFirst)
        (Option.map (mapCtx env) r.getSecondTy) = false := by
      simp [listenerVetoes, hlst]
    have hlhf : listenerHandlesFailure env r (mapCtx env r.getFirst)
        (Option.map (mapCtx env) r.getSecondTy) parents = false := by
      simp [listenerHandlesFailure, hlst]
    simp only [processRequirement, hsub]
    cases hl : env.locValid <;>
      simp [hferr, hserr', hlv, hlhf, hdisp, hl, diagnoseConformanceStack]
  constructor
  · cases hl : env.locValid <;> simp_all [checkLoop, hpr]
  · cases parents with
    | nil => exact absurd rfl hne
    | cons a as => simp

/-- C4 witness: the nested conformance requirement `nominal 1 : 8` under
parent chain `[(nominal 0, 7)]` fails in `envDemo` (valid location): the run
returns `Failure` with the primary diagnostic referencing the inner
requirement and one stack note for the single parent frame. -/
theorem checkArgs_nested_failure_diagnostics_witness :
    checkLoop envDemo 7 [⟨[.conformance (.nominal 1) 8], [(.nominal 0, 7)]⟩]
        true 0 []
      = some ⟨.failure, true, 0,
              [] ++ (if envDemo.locValid then
                      [.primary .typeDoesNotConformOwner (.nominal 42) (.nominal 1)
                         (some (.protoTy 8)),
                       .note .typeDoesNotInheritOrConformRequirement (.nominal 1)
                         (some (.protoTy 8))]
                      ++ [(Ty.nominal 0, 7)].reverse.map DiagEvent.stackNote
                     else [])⟩ ∧
    [(Ty.nominal 0, 7)].reverse.map DiagEvent.stackNote ≠ [] := by
  exact checkArgs_nested_failure_diagnostics envDemo
    (.conformance (.nominal 1) 8) [] [(.nominal 0, 7)] [] true 0 6 []
    .typeDoesNotConformOwner .typeDoesNotInheritOrConformRequirement
    (by decide) rfl rfl rfl rfl

/-- C10.  A `Layout` requirement can produce a requirement failure only when
its layout constraint is a class constraint: for every non-class layout
constraint the loop body never returns a violation (first conjunct), and a
violation on a layout requirement implies its constraint is a class
constraint and the substituted, context-mapped subject type fails
`satisfiesClassConstraint` (second conjunct). -/
theorem layout_requirement_failure_condition (env : CheckEnv) :
    (∀ (parents : List (Ty × Nat)) (t : Ty) (lc : LayoutConstraint)
       (ds : List DiagEvent),
       lc.isClass = false →
       processRequirement env parents (.layout t lc) ≠ .violation ds) ∧
    (∀ (parents : List (Ty × Nat)) (t : Ty) (lc : LayoutConstraint)
       (ds : List DiagEvent),
       processRequirement env parents (.layout t lc) = .violation ds →
       lc.isClass = true ∧
       ∃ t', substStage env parents (.layout t lc) = some (.layout t' lc) ∧
             env.satisfiesClassConstraint (mapCtx env t') = false) := by
  have key : ∀ (parents : List (Ty × Nat)) (t : Ty) (lc : LayoutConstraint)
      (ds : List DiagEvent),
      processRequirement env parents (.layout t lc) = .violation ds →
      lc.isClass = true ∧
      ∃ t', substStage env parents (.layout t lc) = some (.layout t' lc) ∧
            env.satisfiesClassConstraint (mapCtx env t') = false := by
    intro parents t lc ds h
    cases hs : substStage env parents (.layout t lc) with
    | none => simp [processRequirement, hs] at h
    | some req =>
      obtain ⟨t', rfl⟩ := substStage_layout_shape env parents t lc req hs
      simp only [processRequirement, hs, Requirement.getFirst,
                 Requirement.getSecondTy, Option.map_none', Option.getD_none,
                 Bool.or_false] at h
      by_cases herr : (mapCtx env t').hasError = true
      · simp [herr] at h
      · rw [if_neg (by simp [herr])] at h
        by_cases hveto : listenerVetoes env (Requirement.layout t' lc).kind
            (mapCtx env t') none = true
        · simp [hveto] at h
        · rw [if_neg hveto] at h
          by_cases hcls : (lc.isClass && !env.satisfiesClassConstraint (mapCtx env t'))
              = true
          · refine ⟨(Bool.and_eq_true_iff.mp hcls).1, t', rfl, ?_⟩
            have := (Bool.and_eq_true_iff.mp hcls).2
            simpa using this
          · simp [dispatch, hcls] at h
  constructor
  · intro parents t lc ds hnc h
    have := (key parents t lc ds h).1
    rw [hnc] at this
    exact Bool.noConfusion this
  · exact key

/-- C10 witness: in `envDemo` (where nothing satisfies the class
constraint) a class layout requirement on `nominal 1` is a violation and the
theorem yields the class-constraint condition, while a non-class layout
constraint can never be a violation. -/
theorem layout_requirement_failure_condition_witness :
    ((LayoutConstraint.otherLayout 3).isClass = false ∧
     processRequirement envDemo [] (.layout (.nominal 1) (.otherLayout 3))
       ≠ .violation []) ∧
    (processRequirement envDemo [] (.layout (.nominal 1) .classLayout)
       = .violation [.primary .typeIsNotAClass (.nominal 42) (.nominal 1) none,
                     .note .anyObjectRequirement (.nominal 1) none] ∧
     LayoutConstraint.classLayout.isClass = true) := by
  refine ⟨⟨rfl, (layout_requirement_failure_condition envDemo).1 [] (.nominal 1)
    (.otherLayout 3) [] rfl⟩, ?_⟩
  have h : processRequirement envDemo [] (.layout (.nominal 1) .classLayout)
      = .violation [.primary .typeIsNotAClass (.nominal 42) (.nominal 1) none,
                    .note .anyObjectRequirement (.nominal 1) none] := by decide
  exact ⟨h, ((layout_requirement_failure_condition envDemo).2 [] (.nominal 1)
    .classLayout _ h).1⟩

/-! ## Supporting lemmas about the referenced-parameter validator -/

/-- The per-requirement insertion fold appends to the referenced set exactly
the new bare generic parameters among the used types; the flag records
whether anything was appended. -/
theorem visitorFold_shape :
    ∀ (used : List Ty) (r0 : List Ty) (f0 : Bool),
      ∃ ext,
        (used.foldl
            (fun st t =>
              if t.isBareGenericParam then
                if t ∈ st.1 then st else (st.1 ++ [t], true)
              else st)
            (r0, f0))
          = (r0 ++ ext, f0 || !ext.isEmpty) ∧
        ∀ x ∈ ext, x ∈ used ∧ x ∉ r0 := by
  intro used
  induction used with
  | nil => intro r0 f0; exact ⟨[], by simp, by simp⟩
  | cons t us ih =>
    intro r0 f0
    by_cases hb : t.isBareGenericParam = true
    · by_cases hm : t ∈ r0
      · obtain ⟨ext, heq, hprop⟩ := ih r0 f0
        refine ⟨ext, ?_, ?_⟩
        · simpa [hb, hm] using heq
        · intro x hx; exact ⟨List.mem_cons_of_mem _ (hprop x hx).1, (hprop x hx).2⟩
      · obtain ⟨ext, heq, hprop⟩ := ih (r0 ++ [t]) true
        refine ⟨t :: ext, ?_, ?_⟩
        · simp only [List.foldl_cons, hb, if_true, hm, if_false]
          rw [heq]
          simp
        · intro x hx
          rcases List.mem_cons.mp hx with rfl | hx'
          · exact ⟨List.mem_cons_self _ _, hm⟩
          · refine ⟨List.mem_cons_of_mem _ (hprop x hx').1, fun hr => ?_⟩
            exact (hprop x hx').2 (List.mem_append_left _ hr)
    · obtain ⟨ext, heq, hprop⟩ := ih r0 f0
      refine ⟨ext, ?_, ?_⟩
      · simpa [hb] using heq
      · intro x hx; exact ⟨List.mem_cons_of_mem _ (hprop x hx).1, (hprop x hx).2⟩

/-- `reqTypesVisitor` appends to the referenced set exactly the new bare
generic parameters used by the requirement (or nothing, when no used type
has a referenced root), and its flag records whether anything was
appended. -/
theorem reqTypesVisitor_shape (refs : List Ty) (req : Requirement) :
    ∃ ext, reqTypesVisitor refs req = (refs ++ ext, !ext.isEmpty) ∧
      ∀ x ∈ ext, x ∈ reqUsedTys req ∧ x ∉ refs := by
  unfold reqTypesVisitor
  by_cases hany :
      ((reqUsedTys req).any fun t => decide (t.rootGenericParam ∈ refs)) = true
  · obtain ⟨ext, heq, hprop⟩ := visitorFold_shape (reqUsedTys req) refs false
    refine ⟨ext, ?_, hprop⟩
    simpa [hany] using heq
  · refine ⟨[], ?_, by simp⟩
    simp [hany]

/-- One pass over the requirement list appends exactly the new referenced
parameters drawn from the types used by the requirements; the flag records
whether anything was appended. -/
theorem visitPassFold_shape :
    ∀ (reqs : List Requirement) (refs : List Ty) (f0 : Bool),
      ∃ ext,
        (reqs.foldl
            (fun st req =>
              let r := reqTypesVisitor st.1 req
              (r.1, st.2 || r.2))
            (refs, f0))
          = (refs ++ ext, f0 || !ext.isEmpty) ∧
        ∀ x ∈ ext, x ∈ allUsedTys reqs ∧ x ∉ refs := by
  intro reqs
  induction reqs with
  | nil => intro refs f0; exact ⟨[], by simp, by simp⟩
  | cons req rest ih =>
    intro refs f0
    obtain ⟨e1, he1, hp1⟩ := reqTypesVisitor_shape refs req
    obtain ⟨e2, he2, hp2⟩ := ih (refs ++ e1) (f0 || !e1.isEmpty)
    refine ⟨e1 ++ e2, ?_, ?_⟩
    · simp only [List.foldl_cons, he1]
      rw [he2, List.append_assoc]
      congr 1
      cases e1 <;> cases e2 <;> simp [Bool.or_assoc]
    · intro x hx
      rcases List.mem_append.mp hx with hx1 | hx2
      · exact ⟨by simp [allUsedTys, (hp1 x hx1).1], (hp1 x hx1).2⟩
      · refine ⟨by simp [allUsedTys]; right; simpa [allUsedTys] using (hp2 x hx2).1,
          fun hr => (hp2 x hx2).2 (List.mem_append_left _ hr)⟩

/-- `visitPass` in shape form. -/
theorem visitPass_shape (reqs : List Requirement) (refs : List Ty) :
    ∃ ext, visitPass reqs refs = (refs ++ ext, !ext.isEmpty) ∧
      ∀ x ∈ ext, x ∈ allUsedTys reqs ∧ x ∉ refs := by
  obtain ⟨ext, heq, hprop⟩ := visitPassFold_shape reqs refs false
  exact ⟨ext, by simpa using heq, hprop⟩

/-- The fixed-point loop only ever appends to the referenced set. -/
theorem closeRefs_extends :
    ∀ (fuel : Nat) (reqs : List Requirement) (refs : List Ty),
      ∃ ext, closeRefs fuel reqs refs = refs ++ ext := by
  intro fuel
  induction fuel with
  | zero => intro reqs refs; exact ⟨[], by simp [closeRefs]⟩
  | succ n ih =>
    intro reqs refs
    obtain ⟨e1, he1, _⟩ := visitPass_shape reqs refs
    simp only [closeRefs, he1]
    cases e1 with
    | nil => exact ⟨[], by simp⟩
    | cons a as =>
      obtain ⟨e2, he2⟩ := ih reqs (refs ++ a :: as)
      simp only [List.isEmpty_cons, Bool.not_false, if_true]
      exact ⟨(a :: as) ++ e2, by rw [he2, List.append_assoc]⟩

/-- Monotonicity: the closure contains the referenced set it started
from. -/
theorem mem_crgpClosure (reqs : List Requirement) (refs : List Ty) (x : Ty)
    (hx : x ∈ refs) : x ∈ crgpClosure reqs refs := by
  obtain ⟨ext, heq⟩ := closeRefs_extends (closureFuel reqs) reqs refs
  rw [crgpClosure, heq]
  exact List.mem_append_left _ hx

/-- A productive pass strictly decreases the number of used types missing
from the referenced set. -/
theorem visitPass_productive_decreases (reqs : List Requirement) (refs : List Ty)
    (h : (visitPass reqs refs).2 = true) :
    crgpMissing reqs (visitPass reqs refs).1 < crgpMissing reqs refs := by
  obtain ⟨ext, heq, hprop⟩ := visitPass_shape reqs refs
  rw [heq] at h ⊢
  simp only at h ⊢
  cases ext with
  | nil => simp at h
  | cons e es =>
    have heU : e ∈ allUsedTys reqs := (hprop e (List.mem_cons_self _ _)).1
    have heR : e ∉ refs := (hprop e (List.mem_cons_self _ _)).2
    apply Finset.card_lt_card
    rw [Finset.ssubset_iff_of_subset]
    · refine ⟨e, ?_, ?_⟩
      · simp [Finset.mem_filter, List.mem_toFinset, heU, heR]
      · simp [Finset.mem_filter, List.mem_toFinset, List.mem_append]
    · intro a ha
      simp only [Finset.mem_filter, List.mem_toFinset] at ha ⊢
      exact ⟨ha.1, fun hr => ha.2 (List.mem_append_left _ hr)⟩

/-- With enough fuel the loop reaches a fixed point: one further pass over
the requirements adds nothing. -/
theorem closeRefs_stable_aux (reqs : List Requirement) :
    ∀ (fuel : Nat) (refs : List Ty), crgpMissing reqs refs < fuel →
      (visitPass reqs (closeRefs fuel reqs refs)).2 = false := by
  intro fuel
  induction fuel with
  | zero => intro refs h; omega
  | succ n ih =>
    intro refs h
    cases hv : (visitPass reqs refs).2 with
    | false =>
      obtain ⟨ext, heq, _⟩ := visitPass_shape reqs refs
      rw [heq] at hv
      simp only at hv
      have hext : ext = [] := by
        cases ext with
        | nil => rfl
        | cons a as => simp at hv
      subst hext
      simp only [closeRefs, heq, List.append_nil]
      simp only [List.isEmpty_nil, Bool.not_true, if_false]
      have : visitPass reqs refs = (refs, false) := by simpa using heq
      simp [this]
    | true =>
      have hdec := visitPass_productive_decreases reqs refs hv
      simp only [closeRefs, hv]
      have : crgpMissing reqs (visitPass reqs refs).1 < n := by omega
      have hres := ih (visitPass reqs refs).1 this
      simpa [hv] using hres

/-- The fuel chosen by `crgpClosure` reaches the fixed point of the C++
`while (true)` loop: a further pass over the requirements adds nothing. -/
theorem closeRefs_stable (reqs : List Requirement) (refs : List Ty) :
    (visitPass reqs (crgpClosure reqs refs)).2 = false := by
  apply closeRefs_stable_aux
  calc crgpMissing reqs refs
      ≤ (allUsedTys reqs).toFinset.card := Finset.card_filter_le _ _
    _ ≤ (allUsedTys reqs).length := List.toFinset_card_le _
    _ < closureFuel reqs := by simp [closureFuel]

/-- Closure over an empty requirement list is the identity. -/
theorem crgpClosure_nil (refs : List Ty) : crgpClosure [] refs = refs := rfl

/-- Characterization of the diagnosis loop: starting from a state in which
either the closure has not yet been computed (`fetched = []`, the current
set's closure is `C` and the current set is contained in `C`) or it has
(`fetched` is the non-empty requirement list and the current set *is* `C`),
the loop diagnoses exactly the own-depth parameters not in `C`. -/
theorem crgpLoop_spec (sigReqs : List Requirement) (ownDepth : Nat) (C : List Ty) :
    ∀ (ps : List (Nat × Nat)) (refs : List Ty) (fetched : List Requirement)
      (acc : List (Nat × Nat)),
      ((fetched = [] ∧ crgpClosure sigReqs refs = C ∧ ∀ x ∈ refs, x ∈ C) ∨
       (fetched = sigReqs ∧ sigReqs ≠ [] ∧ refs = C)) →
      crgpLoop sigReqs ownDepth ps refs fetched acc
        = acc ++ unreferencedOwnDepth ownDepth C ps := by
  intro ps
  induction ps with
  | nil =>
    intro refs fetched acc _
    simp [crgpLoop, unreferencedOwnDepth]
  | cons p ps ih =>
    obtain ⟨d, i⟩ := p
    intro refs fetched acc hinv
    by_cases hd : d = ownDepth
    · subst hd
      by_cases hmem : Ty.param d i ∈ refs
      · have hC : Ty.param d i ∈ C := by
          rcases hinv with ⟨_, _, hsub⟩ | ⟨_, _, hrC⟩
          · exact hsub _ hmem
          · exact hrC ▸ hmem
        simp only [crgpLoop]
        rw [if_neg (show ¬ (d ≠ d) from fun h => h rfl), if_pos hmem,
            ih refs fetched acc hinv]
        simp [unreferencedOwnDepth, hC]
      · rcases hinv with ⟨hf, hcl, hsub⟩ | ⟨hf, hne, hrC⟩
        · subst hf
          have hnext : ∀ acc2, crgpLoop sigReqs d ps C sigReqs acc2
              = acc2 ++ unreferencedOwnDepth d C ps := by
            intro acc2
            by_cases hsr : sigReqs = []
            · exact ih C sigReqs acc2
                (Or.inl ⟨hsr, by rw [hsr, crgpClosure_nil], fun x hx => hx⟩)
            · exact ih C sigReqs acc2 (Or.inr ⟨rfl, hsr, rfl⟩)
          simp only [crgpLoop]
          rw [if_neg (show ¬ (d ≠ d) from fun h => h rfl), if_neg hmem,
              if_pos (show (List.isEmpty ([] : List Requirement)) = true from rfl),
              hcl]
          by_cases hC : Ty.param d i ∈ C
          · rw [if_pos hC, hnext acc]
            simp [unreferencedOwnDepth, hC]
          · rw [if_neg hC, hnext (acc ++ [(d, i)])]
            simp [unreferencedOwnDepth, hC, List.append_assoc]
        · have hC : Ty.param d i ∉ C := hrC ▸ hmem
          simp only [crgpLoop]
          rw [if_neg (show ¬ (d ≠ d) from fun h => h rfl), if_neg hmem,
              if_neg (show ¬ (List.isEmpty fetched = true) by
                rw [hf]; simpa [List.isEmpty_iff] using hne),
              ih refs fetched (acc ++ [(d, i)]) (Or.inr ⟨hf, hne, hrC⟩)]
          simp [unreferencedOwnDepth, hC, List.append_assoc]
    · simp only [crgpLoop]
      rw [if_pos hd, ih refs fetched acc hinv]
      simp [unreferencedOwnDepth, hd]

/-- C5.  For a non-accessor declaration with its own generic parameter list,
`checkReferencedGenericParams` diagnoses exactly those signature parameters
at the declaration's own depth whose parameter type is neither directly
referenced in a formal parameter or result type nor reached by the
fixed-point closure over the signature's requirements, and it sets the
declaration's interface type to the error sentinel and marks it invalid
exactly when at least one parameter is diagnosed; accessor declarations are
exempt from the entire check. -/
theorem checkReferencedGenericParams_spec :
    (∀ inp : CRGPInput, inp.isAccessor = false → inp.hasGenericParams = true →
       checkReferencedGenericParams inp
         = ⟨unreferencedOwnDepth inp.ownDepth
              (crgpClosure inp.sigRequirements (directRefs inp)) inp.sigParams,
            !(unreferencedOwnDepth inp.ownDepth
              (crgpClosure inp.sigRequirements (directRefs inp)) inp.sigParams).isEmpty,
            !(unreferencedOwnDepth inp.ownDepth
              (crgpClosure inp.sigRequirements (directRefs inp)) inp.sigParams).isEmpty⟩) ∧
    (∀ inp : CRGPInput, inp.isAccessor = true →
       checkReferencedGenericParams inp = ⟨[], false, false⟩) := by
  constructor
  · intro inp hacc hgp
    have hloop := crgpLoop_spec inp.sigRequirements inp.ownDepth
      (crgpClosure inp.sigRequirements (directRefs inp)) inp.sigParams
      (directRefs inp) [] []
      (Or.inl ⟨rfl, rfl, fun x hx => mem_crgpClosure _ _ x hx⟩)
    simp only [checkReferencedGenericParams, hacc, hgp]
    rw [hloop]
    simp
  · intro inp hacc
    simp [checkReferencedGenericParams, hacc]

/-- C5 witness: the transitive same-type chain `T1 == T2.M`, `T2 == T3.N`,
`T3 == U` with `U` directly referenced leaves nothing to diagnose; a
declaration with one never-mentioned parameter gets exactly that parameter
diagnosed and is invalidated; an accessor is exempt. -/
theorem checkReferencedGenericParams_spec_witness :
    checkReferencedGenericParams inpChain = ⟨[], false, false⟩ ∧
    checkReferencedGenericParams inpUnused = ⟨[(1, 0)], true, true⟩ ∧
    checkReferencedGenericParams { inpChain with isAccessor := true }
      = ⟨[], false, false⟩ := by
  refine ⟨?_, ?_, ?_⟩
  · rw [checkReferencedGenericParams_spec.1 inpChain rfl rfl]; decide
  · rw [checkReferencedGenericParams_spec.1 inpUnused rfl rfl]; decide
  · exact checkReferencedGenericParams_spec.2 _ rfl

/-! ## Claim theorems about signature construction -/

/-- C6.  For an extension with no trailing where clause, not requiring
requirement inference, whose extended nominal type has a generic signature
whose deepest parameter depth equals the innermost generic parameter depth,
`checkGenericEnvironment` skips the builder and reuses that very signature
(same identity).  In every other case — no extension, mandatory inference,
a trailing where clause, or a depth mismatch — a fresh builder run supplies
the signature. -/
theorem checkGenericEnvironment_extension_fast_path :
    (∀ (e : ExtDeclModel) (s builtSig : GenericSig) (gpLastDepth : Nat),
       e.nominalSig = some s →
       e.trailingWhereClause = false →
       s.lastParamDepth = gpLastDepth →
       checkGenericEnvironment (some e) false gpLastDepth builtSig = ⟨false, s⟩) ∧
    (∀ (builtSig : GenericSig) (mi : Bool) (gpLastDepth : Nat),
       checkGenericEnvironment none mi gpLastDepth builtSig = ⟨true, builtSig⟩) ∧
    (∀ (e : ExtDeclModel) (builtSig : GenericSig) (gpLastDepth : Nat),
       checkGenericEnvironment (some e) true gpLastDepth builtSig
         = ⟨true, builtSig⟩) ∧
    (∀ (e : ExtDeclModel) (builtSig : GenericSig) (mi : Bool) (gpLastDepth : Nat),
       e.trailingWhereClause = true →
       checkGenericEnvironment (some e) mi gpLastDepth builtSig
         = ⟨true, builtSig⟩) ∧
    (∀ (e : ExtDeclModel) (builtSig : GenericSig) (mi : Bool) (gpLastDepth : Nat),
       getExtendedTypeGenericDepth e ≠ gpLastDepth →
       checkGenericEnvironment (some e) mi gpLastDepth builtSig
         = ⟨true, builtSig⟩) := by
  refine ⟨?_, ?_, ?_, ?_, ?_⟩
  · intro e s builtSig gpLastDepth hs htw hdep
    simp [checkGenericEnvironment, getExtendedTypeGenericDepth, hs, htw, hdep]
  · intro builtSig mi gpLastDepth
    simp [checkGenericEnvironment]
  · intro e builtSig gpLastDepth
    simp [checkGenericEnvironment]
  · intro e builtSig mi gpLastDepth htw
    simp [checkGenericEnvironment, htw]
  · intro e builtSig mi gpLastDepth hdep
    simp [checkGenericEnvironment, hdep]

/-- C6 witness: an extension of a nominal type whose cached signature is
`⟨11, 2⟩` and whose depth matches gets exactly that signature back with no
builder run (the freshly built signature `⟨99, 2⟩` is not used); with a
trailing where clause the builder runs instead. -/
theorem checkGenericEnvironment_extension_fast_path_witness :
    checkGenericEnvironment (some ⟨false, some ⟨11, 2⟩⟩) false 2 ⟨99, 2⟩
      = ⟨false, ⟨11, 2⟩⟩ ∧
    checkGenericEnvironment (some ⟨true, some ⟨11, 2⟩⟩) false 2 ⟨99, 2⟩
      = ⟨true, ⟨99, 2⟩⟩ ∧
    checkGenericEnvironment none false 2 ⟨99, 2⟩ = ⟨true, ⟨99, 2⟩⟩ := by
  refine ⟨?_, ?_, ?_⟩
  · exact checkGenericEnvironment_extension_fast_path.1 ⟨false, some ⟨11, 2⟩⟩
      ⟨11, 2⟩ ⟨99, 2⟩ 2 rfl rfl rfl
  · exact checkGenericEnvironment_extension_fast_path.2.2.2.1 ⟨true, some ⟨11, 2⟩⟩
      ⟨99, 2⟩ false 2 rfl
  · exact checkGenericEnvironment_extension_fast_path.2.1 ⟨99, 2⟩ false 2

/-- `builder.addRequirement` in a fold over the existential's protocols
appends one conformance requirement per protocol, in order. -/
theorem foldl_addConformanceReqs (rtp : Ty) :
    ∀ (ps : List Nat) (b : OpaqueSigBuilder),
      ps.foldl
          (fun b p =>
            { importedSig := b.importedSig, addedParams := b.addedParams,
              addedReqs := b.addedReqs ++ [Requirement.conformance rtp p] })
          b
        = { b with addedReqs :=
              b.addedReqs ++ ps.map (fun p => Requirement.conformance rtp p) } := by
  intro ps
  induction ps with
  | nil => intro b; simp
  | cons p pt ih =>
    intro b
    simp only [List.foldl_cons, List.map_cons]
    rw [ih]
    simp

/-- C7.  For a declaration that is not a protocol requirement and has no
previously manufactured result-type declaration, with its constraint
resolved to a class or existential bound, `getOrCreateOpaqueResultType`
imports the outer signature, synthesizes exactly one generic parameter at
index 0 with depth one past the outer signature's deepest parameter (0 with
no outer signature), and adds exactly the requirement list derived from the
bound: one superclass requirement for a class bound, or superclass (if
any) + one conformance per protocol + layout (if any) for an existential
bound. -/
theorem getOrCreateOpaqueResultType_spec :
    ∀ (decl : OriginatingDeclModel) (c : ConstraintTypeModel),
      decl.isProtocolRequirementInProtocolContext = false →
      decl.existingResultTypeDecl = none →
      getOrCreateOpaqueResultType decl (.resolved c)
        = .synthesized (synthesizedParamDepth decl.outerSig, 0)
            ⟨decl.outerSig,
             [(synthesizedParamDepth decl.outerSig, 0)],
             boundRequirements (.param (synthesizedParamDepth decl.outerSig) 0) c⟩ := by
  intro decl c hpr hex
  simp only [getOrCreateOpaqueResultType, hpr, hex]
  cases ho : decl.outerSig with
  | none =>
    cases c with
    | classConstraint t =>
      simp [ho, synthesizedParamDepth, boundRequirements, OpaqueSigBuilder.addReq]
    | existentialConstraint lay =>
      obtain ⟨sc, protos, lb⟩ := lay
      cases sc <;> cases lb <;>
        simp [ho, synthesizedParamDepth, boundRequirements,
              OpaqueSigBuilder.addReq, foldl_addConformanceReqs]
  | some s =>
    cases c with
    | classConstraint t =>
      simp [ho, synthesizedParamDepth, boundRequirements, OpaqueSigBuilder.addReq]
    | existentialConstraint lay =>
      obtain ⟨sc, protos, lb⟩ := lay
      cases sc <;> cases lb <;>
        simp [ho, synthesizedParamDepth, boundRequirements,
              OpaqueSigBuilder.addReq, foldl_addConformanceReqs]

/-- C7 witness: with an outer signature of deepest depth 1 and an
existential bound `SomeClass & P3 & P4 : AnyObject`, the synthesized
parameter is `(2, 0)` and the requirements are the superclass, the two
conformances, and the layout requirement, in that order; with no outer
signature and a class bound, the parameter is `(0, 0)` with one superclass
requirement. -/
theorem getOrCreateOpaqueResultType_spec_witness :
    getOrCreateOpaqueResultType ⟨false, none, some ⟨7, 1⟩⟩
        (.resolved (.existentialConstraint ⟨some (.nominal 9), [3, 4],
          some .classLayout⟩))
      = .synthesized (2, 0)
          ⟨some ⟨7, 1⟩, [(2, 0)],
           [.superclass (.param 2 0) (.nominal 9),
            .conformance (.param 2 0) 3, .conformance (.param 2 0) 4,
            .layout (.param 2 0) .classLayout]⟩ ∧
    getOrCreateOpaqueResultType ⟨false, none, none⟩
        (.resolved (.classConstraint (.nominal 9)))
      = .synthesized (0, 0)
          ⟨none, [(0, 0)], [.superclass (.param 0 0) (.nominal 9)]⟩ := by
  constructor
  · have h := getOrCreateOpaqueResultType_spec ⟨false, none, some ⟨7, 1⟩⟩
      (.existentialConstraint ⟨some (.nominal 9), [3, 4], some .classLayout⟩)
      rfl rfl
    rw [h]; decide
  · have h := getOrCreateOpaqueResultType_spec ⟨false, none, none⟩
      (.classConstraint (.nominal 9)) rfl rfl
    rw [h]; decide

/-! ## Canonicalization order-independence -/

/-- The layout key is injective. -/
theorem encodeLayout_injective :
    ∀ a b : LayoutConstraint, encodeLayout a = encodeLayout b → a = b := by
  intro a b h
  cases a <;> cases b <;> simp_all [encodeLayout] <;> omega

/-- The type key is injective. -/
theorem encodeTy_injective : ∀ a b : Ty, encodeTy a = encodeTy b → a = b := by
  intro a
  induction a with
  | param d i =>
    intro b h
    cases b <;> simp only [encodeTy] at h
    case param d' i' =>
      have hp : Nat.pair d i = Nat.pair d' i' := by omega
      have h2 := Nat.pair_eq_pair.mp hp
      rw [h2.1, h2.2]
    all_goals (exfalso; omega)
  | depMember bb aa ih =>
    intro b h
    cases b <;> simp only [encodeTy] at h
    case depMember b' a' =>
      have hp : Nat.pair (encodeTy bb) aa = Nat.pair (encodeTy b') a' := by omega
      have h2 := Nat.pair_eq_pair.mp hp
      rw [ih b' h2.1, h2.2]
    all_goals (exfalso; omega)
  | unresolvedDepMember bb nn ih =>
    intro b h
    cases b <;> simp only [encodeTy] at h
    case unresolvedDepMember b' n' =>
      have hp : Nat.pair (encodeTy bb) nn = Nat.pair (encodeTy b') n' := by omega
      have h2 := Nat.pair_eq_pair.mp hp
      rw [ih b' h2.1, h2.2]
    all_goals (exfalso; omega)
  | protoTy p =>
    intro b h
    cases b <;> simp only [encodeTy] at h
    case protoTy p' =>
      have : p = p' := by omega
      rw [this]
    all_goals (exfalso; omega)
  | nominal n =>
    intro b h
    cases b <;> simp only [encodeTy] at h
    case nominal n' =>
      have : n = n' := by omega
      rw [this]
    all_goals (exfalso; omega)
  | app ff aa ihf iha =>
    intro b h
    cases b <;> simp only [encodeTy] at h
    case app f' a' =>
      have hp : Nat.pair (encodeTy ff) (encodeTy aa)
          = Nat.pair (encodeTy f') (encodeTy a') := by omega
      have h2 := Nat.pair_eq_pair.mp hp
      rw [ihf f' h2.1, iha a' h2.2]
    all_goals (exfalso; omega)
  | archetype n =>
    intro b h
    cases b <;> simp only [encodeTy] at h
    case archetype n' =>
      have : n = n' := by omega
      rw [this]
    all_goals (exfalso; omega)
  | errorTy =>
    intro b h
    cases b <;> simp only [encodeTy] at h
    case errorTy => rfl
    all_goals (exfalso; omega)

/-- The requirement key is injective. -/
theorem encodeReq_injective :
    ∀ a b : Requirement, encodeReq a = encodeReq b → a = b := by
  intro a
  cases a with
  | conformance t p =>
    intro b h
    cases b <;> simp only [encodeReq] at h
    case conformance t' p' =>
      have hp : Nat.pair (encodeTy t) p = Nat.pair (encodeTy t') p' := by omega
      have h2 := Nat.pair_eq_pair.mp hp
      rw [encodeTy_injective t t' h2.1, h2.2]
    all_goals (exfalso; omega)
  | superclass a1 a2 =>
    intro b h
    cases b <;> simp only [encodeReq] at h
    case superclass b1 b2 =>
      have hp : Nat.pair (encodeTy a1) (encodeTy a2)
          = Nat.pair (encodeTy b1) (encodeTy b2) := by omega
      have h2 := Nat.pair_eq_pair.mp hp
      rw [encodeTy_injective a1 b1 h2.1, encodeTy_injective a2 b2 h2.2]
    all_goals (exfalso; omega)
  | sameType a1 a2 =>
    intro b h
    cases b <;> simp only [encodeReq] at h
    case sameType b1 b2 =>
      have hp : Nat.pair (encodeTy a1) (encodeTy a2)
          = Nat.pair (encodeTy b1) (encodeTy b2) := by omega
      have h2 := Nat.pair_eq_pair.mp hp
      rw [encodeTy_injective a1 b1 h2.1, encodeTy_injective a2 b2 h2.2]
    all_goals (exfalso; omega)
  | layout t lc =>
    intro b h
    cases b <;> simp only [encodeReq] at h
    case layout t' lc' =>
      have hp : Nat.pair (encodeTy t) (encodeLayout lc)
          = Nat.pair (encodeTy t') (encodeLayout lc') := by omega
      have h2 := Nat.pair_eq_pair.mp hp
      rw [encodeTy_injective t t' h2.1, encodeLayout_injective lc lc' h2.2]
    all_goals (exfalso; omega)

/-- The preference key is injective. -/
theorem prefKey_injective : ∀ a b : Ty, prefKey a = prefKey b → a = b := by
  intro a b h
  exact encodeTy_injective a b (Nat.pair_eq_pair.mp h).2

/-- The fold underlying `prefMin` returns its seed or a list element. -/
theorem prefMinFold_mem : ∀ (ts : List Ty) (m : Ty),
    ts.foldl (fun m u => if prefKey u < prefKey m then u else m) m = m ∨
    ts.foldl (fun m u => if prefKey u < prefKey m then u else m) m ∈ ts := by
  intro ts
  induction ts with
  | nil => intro m; left; rfl
  | cons u ts ih =>
    intro m
    simp only [List.foldl_cons]
    by_cases h : prefKey u < prefKey m
    · rw [if_pos h]
      rcases ih u with h1 | h1
      · right; rw [h1]; exact List.mem_cons_self u ts
      · right; exact List.mem_cons_of_mem u h1
    · rw [if_neg h]
      rcases ih m with h1 | h1
      · left; exact h1
      · right; exact List.mem_cons_of_mem u h1

/-- The fold underlying `prefMin` is a lower bound for the seed and every
element. -/
theorem prefMinFold_le : ∀ (ts : List Ty) (m : Ty), ∀ x ∈ m :: ts,
    prefKey (ts.foldl (fun m u => if prefKey u < prefKey m then u else m) m)
      ≤ prefKey x := by
  intro ts
  induction ts with
  | nil =>
    intro m x hx
    simp only [List.foldl_nil]
    rcases List.mem_cons.mp hx with h | h
    · rw [h]
    · exact absurd h (List.not_mem_nil x)
  | cons u ts ih =>
    intro m x hx
    simp only [List.foldl_cons]
    rcases List.mem_cons.mp hx with h1 | h1
    · rw [h1]
      by_cases h : prefKey u < prefKey m
      · rw [if_pos h]
        exact Nat.le_trans (ih u u (List.mem_cons_self u ts)) (Nat.le_of_lt h)
      · rw [if_neg h]
        exact ih m m (List.mem_cons_self m ts)
    · by_cases h : prefKey u < prefKey m
      · rw [if_pos h]
        exact ih u x h1
      · rw [if_neg h]
        rcases List.mem_cons.mp h1 with h2 | h2
        · rw [h2]
          exact Nat.le_trans (ih m m (List.mem_cons_self m ts)) (Nat.le_of_not_lt h)
        · exact ih m x (List.mem_cons_of_mem m h2)

/-- `prefMin` of a non-empty list is a member and minimizes the key. -/
theorem prefMin_spec (l : List Ty) (h : l ≠ []) :
    prefMin l ∈ l ∧ ∀ x ∈ l, prefKey (prefMin l) ≤ prefKey x := by
  cases l with
  | nil => exact absurd rfl h
  | cons t ts =>
    constructor
    · rcases prefMinFold_mem ts t with h1 | h1
      · simp only [prefMin]
        rw [h1]
        exact List.mem_cons_self t ts
      · simp only [prefMin]
        exact List.mem_cons_of_mem t h1
    · intro x hx
      simp only [prefMin]
      exact prefMinFold_le ts t x hx

/-- Two non-empty lists with the same members have the same `prefMin`. -/
theorem prefMin_congr (l₁ l₂ : List Ty) (h₁ : l₁ ≠ []) (h₂ : l₂ ≠ [])
    (h : ∀ x, x ∈ l₁ ↔ x ∈ l₂) : prefMin l₁ = prefMin l₂ := by
  obtain ⟨hm₁, hle₁⟩ := prefMin_spec l₁ h₁
  obtain ⟨hm₂, hle₂⟩ := prefMin_spec l₂ h₂
  apply prefKey_injective
  exact Nat.le_antisymm (hle₁ (prefMin l₂) ((h _).mpr hm₂))
    (hle₂ (prefMin l₁) ((h _).mp hm₁))

/-- `reqOfConstraint` is injective in both arguments. -/
theorem reqOfConstraint_inj (a b : Ty) (k k' : ClassConstraint)
    (h : reqOfConstraint a k = reqOfConstraint b k') : a = b ∧ k = k' := by
  cases k <;> cases k' <;> simp_all [reqOfConstraint]

/-- A same-type requirement is never of constraint form. -/
theorem sameType_ne_reqOfConstraint (a b u : Ty) (k : ClassConstraint) :
    Requirement.sameType a b ≠ reqOfConstraint u k := by
  cases k <;> simp [reqOfConstraint]

/-- Appending a constraint-form requirement adds no same-type edge. -/
theorem stEdge_append_constraint (l : List Requirement) (t₀ : Ty)
    (k₀ : ClassConstraint) (a b : Ty) :
    stEdge (l ++ [reqOfConstraint t₀ k₀]) a b ↔ stEdge l a b := by
  unfold stEdge
  rw [List.mem_append]
  simp only [List.mem_singleton]
  constructor
  · rintro (h | h)
    · exact h
    · exact absurd h (sameType_ne_reqOfConstraint a b t₀ k₀)
  · exact fun h => Or.inl h

/-- Appending a constraint on `t₀` mentions exactly `t₀` more. -/
theorem mentioned_append_constraint (l : List Requirement) (t₀ : Ty)
    (k₀ : ClassConstraint) (x : Ty) :
    mentionedIn (l ++ [reqOfConstraint t₀ k₀]) x ↔ mentionedIn l x ∨ x = t₀ := by
  unfold mentionedIn
  simp only [List.mem_append, List.mem_singleton]
  constructor
  · rintro (⟨k, h | h⟩ | ⟨u, h | h⟩ | ⟨u, h | h⟩)
    · exact Or.inl (Or.inl ⟨k, h⟩)
    · exact Or.inr (reqOfConstraint_inj x t₀ k k₀ h).1
    · exact Or.inl (Or.inr (Or.inl ⟨u, h⟩))
    · exact absurd h (sameType_ne_reqOfConstraint x u t₀ k₀)
    · exact Or.inl (Or.inr (Or.inr ⟨u, h⟩))
    · exact absurd h (sameType_ne_reqOfConstraint u x t₀ k₀)
  · rintro (h | rfl)
    · rcases h with ⟨k, h⟩ | ⟨u, h⟩ | ⟨u, h⟩
      · exact Or.inl ⟨k, Or.inl h⟩
      · exact Or.inr (Or.inl ⟨u, Or.inl h⟩)
      · exact Or.inr (Or.inr ⟨u, Or.inl h⟩)
    · exact Or.inl ⟨k₀, Or.inr rfl⟩

/-- Appending a same-type requirement adds exactly one edge. -/
theorem stEdge_append_sameType (l : List Requirement) (a₀ b₀ a b : Ty) :
    stEdge (l ++ [Requirement.sameType a₀ b₀]) a b ↔
      (stEdge l a b ∨ (a = a₀ ∧ b = b₀)) := by
  unfold stEdge
  simp only [List.mem_append, List.mem_singleton]
  constructor
  · rintro (h | h)
    · exact Or.inl h
    · injection h with h1 h2
      exact Or.inr ⟨h1, h2⟩
  · rintro (h | ⟨rfl, rfl⟩)
    · exact Or.inl h
    · exact Or.inr rfl

/-- Appending a same-type requirement mentions exactly its two sides
more. -/
theorem mentioned_append_sameType (l : List Requirement) (a₀ b₀ x : Ty) :
    mentionedIn (l ++ [Requirement.sameType a₀ b₀]) x ↔
      (mentionedIn l x ∨ x = a₀ ∨ x = b₀) := by
  unfold mentionedIn
  simp only [List.mem_append, List.mem_singleton]
  constructor
  · rintro (⟨k, h | h⟩ | ⟨u, h | h⟩ | ⟨u, h | h⟩)
    · exact Or.inl (Or.inl ⟨k, h⟩)
    · exact absurd h.symm (sameType_ne_reqOfConstraint a₀ b₀ x k)
    · exact Or.inl (Or.inr (Or.inl ⟨u, h⟩))
    · injection h with h1 h2
      exact Or.inr (Or.inl h1)
    · exact Or.inl (Or.inr (Or.inr ⟨u, h⟩))
    · injection h with h1 h2
      exact Or.inr (Or.inr h2)
  · rintro (h | rfl | rfl)
    · rcases h with ⟨k, h⟩ | ⟨u, h⟩ | ⟨u, h⟩
      · exact Or.inl ⟨k, Or.inl h⟩
      · exact Or.inr (Or.inl ⟨u, Or.inl h⟩)
      · exact Or.inr (Or.inr ⟨u, Or.inl h⟩)
    · exact Or.inr (Or.inl ⟨b₀, Or.inr rfl⟩)
    · exact Or.inr (Or.inr ⟨a₀, Or.inr rfl⟩)

/-- The left endpoint of a same-type edge is mentioned. -/
theorem stEdge_mentioned_left (l : List Requirement) (a b : Ty)
    (h : stEdge l a b) : mentionedIn l a := Or.inr (Or.inl ⟨b, h⟩)

/-- The right endpoint of a same-type edge is mentioned. -/
theorem stEdge_mentioned_right (l : List Requirement) (a b : Ty)
    (h : stEdge l a b) : mentionedIn l b := Or.inr (Or.inr ⟨a, h⟩)

/-- Endpoints of an equivalence chain coincide or are both mentioned. -/
theorem eqvGen_ment_both (l : List Requirement) :
    ∀ a b : Ty, Relation.EqvGen (stEdge l) a b →
      a = b ∨ (mentionedIn l a ∧ mentionedIn l b) := by
  intro a b h
  induction h with
  | rel x y hxy =>
    exact Or.inr ⟨stEdge_mentioned_left l x y hxy, stEdge_mentioned_right l x y hxy⟩
  | refl x => exact Or.inl rfl
  | symm x y hxy ih =>
    rcases ih with rfl | ⟨h1, h2⟩
    · exact Or.inl rfl
    · exact Or.inr ⟨h2, h1⟩
  | trans x y z hxy hyz ih1 ih2 =>
    rcases ih1 with rfl | ⟨h1, h2⟩
    · exact ih2
    · rcases ih2 with rfl | ⟨h3, h4⟩
      · exact Or.inr ⟨h1, h2⟩
      · exact Or.inr ⟨h1, h4⟩

/-- A type mentioned nowhere is equivalent only to itself. -/
theorem eqvGen_isolated (l : List Requirement) (t : Ty)
    (hiso : ¬ mentionedIn l t) :
    ∀ x y : Ty, Relation.EqvGen (stEdge l) x y →
      (x = t → y = t) ∧ (y = t → x = t) := by
  intro x y h
  induction h with
  | rel a b hab =>
    constructor
    · intro ha
      exact absurd (ha ▸ stEdge_mentioned_left l a b hab) hiso
    · intro hb
      exact absurd (hb ▸ stEdge_mentioned_right l a b hab) hiso
  | refl a => exact ⟨id, id⟩
  | symm a b hab ih => exact ⟨ih.2, ih.1⟩
  | trans a b c hab hbc ih1 ih2 =>
    exact ⟨fun h => ih2.1 (ih1.1 h), fun h => ih1.2 (ih2.2 h)⟩

/-- Symmetry of the equivalence closure, with implicit endpoints. -/
theorem eqvGen_symm {α : Type} {E : α → α → Prop} {a b : α}
    (h : Relation.EqvGen E a b) : Relation.EqvGen E b a :=
  Relation.EqvGen.symm a b h

/-- Transitivity of the equivalence closure, with implicit endpoints. -/
theorem eqvGen_trans {α : Type} {E : α → α → Prop} {a b c : α}
    (h1 : Relation.EqvGen E a b) (h2 : Relation.EqvGen E b c) :
    Relation.EqvGen E a c :=
  Relation.EqvGen.trans a b c h1 h2

/-- Equivalent relations generate equivalent closures. -/
theorem eqvGen_congr {α : Type} (E F : α → α → Prop)
    (h : ∀ x y, E x y ↔ F x y) :
    ∀ a b, Relation.EqvGen E a b ↔ Relation.EqvGen F a b := by
  intro a b
  constructor
  · exact Relation.EqvGen.mono (fun x y hxy => (h x y).mp hxy)
  · exact Relation.EqvGen.mono (fun x y hxy => (h x y).mpr hxy)

/-- Adding a single edge `(a₀, b₀)` to a relation decomposes the new
equivalence closure: a chain avoids the new edge or crosses it in one of
the two directions. -/
theorem eqvGen_extend {α : Type} (E : α → α → Prop) (a₀ b₀ : α) :
    ∀ x y : α,
      Relation.EqvGen (fun u v => E u v ∨ (u = a₀ ∧ v = b₀)) x y ↔
        (Relation.EqvGen E x y ∨
         (Relation.EqvGen E x a₀ ∧ Relation.EqvGen E b₀ y) ∨
         (Relation.EqvGen E x b₀ ∧ Relation.EqvGen E a₀ y)) := by
  intro x y
  constructor
  · intro h
    induction h with
    | rel u v huv =>
      rcases huv with h | ⟨rfl, rfl⟩
      · exact Or.inl (Relation.EqvGen.rel u v h)
      · exact Or.inr (Or.inl ⟨Relation.EqvGen.refl u, Relation.EqvGen.refl v⟩)
    | refl u => exact Or.inl (Relation.EqvGen.refl u)
    | symm u v huv ih =>
      rcases ih with h | ⟨h1, h2⟩ | ⟨h1, h2⟩
      · exact Or.inl (eqvGen_symm h)
      · exact Or.inr (Or.inr ⟨eqvGen_symm h2, eqvGen_symm h1⟩)
      · exact Or.inr (Or.inl ⟨eqvGen_symm h2, eqvGen_symm h1⟩)
    | trans u v w huv hvw ih1 ih2 =>
      rcases ih1 with h | ⟨h1, h2⟩ | ⟨h1, h2⟩
      · rcases ih2 with g | ⟨g1, g2⟩ | ⟨g1, g2⟩
        · exact Or.inl (eqvGen_trans h g)
        · exact Or.inr (Or.inl ⟨eqvGen_trans h g1, g2⟩)
        · exact Or.inr (Or.inr ⟨eqvGen_trans h g1, g2⟩)
      · rcases ih2 with g | ⟨g1, g2⟩ | ⟨g1, g2⟩
        · exact Or.inr (Or.inl ⟨h1, eqvGen_trans h2 g⟩)
        · exact Or.inr (Or.inl ⟨h1, g2⟩)
        · exact Or.inl (eqvGen_trans h1 g2)
      · rcases ih2 with g | ⟨g1, g2⟩ | ⟨g1, g2⟩
        · exact Or.inr (Or.inr ⟨h1, eqvGen_trans h2 g⟩)
        · exact Or.inl (eqvGen_trans h1 g2)
        · exact Or.inr (Or.inr ⟨h1, g2⟩)
  · intro h
    have hmono : ∀ u v, Relation.EqvGen E u v →
        Relation.EqvGen (fun u v => E u v ∨ (u = a₀ ∧ v = b₀)) u v :=
      fun u v => Relation.EqvGen.mono (fun p q hpq => Or.inl hpq)
    have hedge : Relation.EqvGen (fun u v => E u v ∨ (u = a₀ ∧ v = b₀)) a₀ b₀ :=
      Relation.EqvGen.rel a₀ b₀ (Or.inr ⟨rfl, rfl⟩)
    rcases h with h | ⟨h1, h2⟩ | ⟨h1, h2⟩
    · exact hmono x y h
    · exact eqvGen_trans (eqvGen_trans (hmono x a₀ h1) hedge) (hmono b₀ y h2)
    · exact eqvGen_trans (eqvGen_trans (hmono x b₀ h1) (eqvGen_symm hedge)) (hmono a₀ y h2)

/-- Under `BuildGood`, a type lies in some class iff it is mentioned. -/
theorem buildGood_mem_iff (l : List Requirement) (bld : SigBuilder)
    (hg : BuildGood l bld) (t : Ty) :
    (∃ c ∈ bld.classes, t ∈ c.members) ↔ mentionedIn l t := by
  have h := hg.relSpec t t
  unfold relB at h
  constructor
  · rintro ⟨c, hc, ht⟩
    exact (h.mp ⟨c, hc, ht, ht⟩).1
  · intro hm
    obtain ⟨c, hc, ht, -⟩ := h.mpr ⟨hm, hm, Relation.EqvGen.refl t⟩
    exact ⟨c, hc, ht⟩

/-- `classOf` fails exactly when no class contains the type. -/
theorem classOf_none_iff (t : Ty) (cs : List EquivClass) :
    classOf t cs = none ↔ ∀ c ∈ cs, t ∉ c.members := by
  unfold classOf
  rw [List.find?_eq_none]
  simp

/-- What `classOf` returns is a class of the list containing the type. -/
theorem classOf_some (t : Ty) (cs : List EquivClass) (c : EquivClass)
    (h : classOf t cs = some c) : c ∈ cs ∧ t ∈ c.members := by
  refine ⟨List.mem_of_find?_eq_some h, ?_⟩
  have h2 := List.find?_some h
  simpa using h2

/-- Under disjointness, `classOf` returns exactly the class containing
the type. -/
theorem classOf_eq_of_mem (t : Ty) (bld : SigBuilder)
    (hdis : ∀ c1 ∈ bld.classes, ∀ c2 ∈ bld.classes,
      (∃ u, u ∈ c1.members ∧ u ∈ c2.members) → c1 = c2)
    (c : EquivClass) (hc : c ∈ bld.classes) (ht : t ∈ c.members) :
    classOf t bld.classes = some c := by
  cases h : classOf t bld.classes with
  | none =>
    exact absurd ht ((classOf_none_iff t bld.classes).mp h c hc)
  | some c' =>
    obtain ⟨hc', ht'⟩ := classOf_some t bld.classes c' h
    rw [hdis c' hc' c hc ⟨t, ht', ht⟩]

/-- Under `BuildGood`, the members of the class looked up for `t` (fresh
singleton included) are exactly the types equivalent to `t`. -/
theorem getD_members_iff (l : List Requirement) (bld : SigBuilder)
    (hg : BuildGood l bld) (t x : Ty) :
    x ∈ ((classOf t bld.classes).getD (singletonClass t)).members ↔
      Relation.EqvGen (stEdge l) t x := by
  cases h : classOf t bld.classes with
  | none =>
    have hnm : ¬ mentionedIn l t := by
      intro hm
      obtain ⟨c, hc, ht⟩ := (buildGood_mem_iff l bld hg t).mpr hm
      exact absurd ht ((classOf_none_iff t bld.classes).mp h c hc)
    simp only [Option.getD_none, singletonClass, List.mem_singleton]
    constructor
    · intro hx
      rw [hx]
      exact Relation.EqvGen.refl t
    · intro hx
      exact (eqvGen_isolated l t hnm t x hx).1 rfl
  | some c =>
    obtain ⟨hc, ht⟩ := classOf_some t bld.classes c h
    simp only [Option.getD_some]
    constructor
    · intro hx
      exact ((hg.relSpec t x).mp ⟨c, hc, ht, hx⟩).2.2
    · intro hx
      rcases eqvGen_ment_both l t x hx with rfl | ⟨hmt, hmx⟩
      · exact ht
      · obtain ⟨c', hc', ht', hx'⟩ := (hg.relSpec t x).mpr ⟨hmt, hmx, hx⟩
        rw [← hg.disjoint c' hc' c hc ⟨t, ht', ht⟩]
        exact hx'

/-- Under `BuildGood`, the constraints of the class looked up for `t` are
exactly those attached to `t`'s class. -/
theorem getD_constraints_iff (l : List Requirement) (bld : SigBuilder)
    (hg : BuildGood l bld) (t : Ty) (k : ClassConstraint) :
    k ∈ ((classOf t bld.classes).getD (singletonClass t)).constraints ↔
      attC bld t k := by
  cases h : classOf t bld.classes with
  | none =>
    simp only [Option.getD_none, singletonClass]
    constructor
    · intro hk
      exact absurd hk (List.not_mem_nil k)
    · rintro ⟨c, hc, ht, -⟩
      exact absurd ht ((classOf_none_iff t bld.classes).mp h c hc)
  | some c =>
    obtain ⟨hc, ht⟩ := classOf_some t bld.classes c h
    simp only [Option.getD_some]
    constructor
    · intro hk
      exact ⟨c, hc, ht, hk⟩
    · rintro ⟨c', hc', ht', hk'⟩
      rw [hg.disjoint c hc c' hc' ⟨t, ht, ht'⟩]
      exact hk'

/-- The looked-up class is never empty. -/
theorem getD_members_ne_nil (l : List Requirement) (bld : SigBuilder)
    (hg : BuildGood l bld) (t : Ty) :
    ((classOf t bld.classes).getD (singletonClass t)).members ≠ [] := by
  intro h
  have ht : t ∈ ((classOf t bld.classes).getD (singletonClass t)).members :=
    (getD_members_iff l bld hg t t).mpr (Relation.EqvGen.refl t)
  rw [h] at ht
  exact absurd ht (List.not_mem_nil t)

/-- A type equivalent to a member of a class of a good builder lies in
that class. -/
theorem mem_class_of_eqvGen (l : List Requirement) (bld : SigBuilder)
    (hg : BuildGood l bld) (t u : Ty) (c : EquivClass) (hc : c ∈ bld.classes)
    (hu : u ∈ c.members) (hG : Relation.EqvGen (stEdge l) t u) :
    t ∈ c.members := by
  rcases eqvGen_ment_both l t u hG with rfl | ⟨hmt, hmu⟩
  · exact hu
  · obtain ⟨c', hc', ht', hu'⟩ := (hg.relSpec t u).mpr ⟨hmt, hmu, hG⟩
    rw [← hg.disjoint c' hc' c hc ⟨u, hu', hu⟩]
    exact ht'

/-- The classes after `attachConstraint`: the untouched classes plus the
subject's class with the constraint attached. -/
theorem mem_attach_classes (bld : SigBuilder) (t₀ : Ty) (k₀ : ClassConstraint)
    (c : EquivClass) :
    c ∈ (bld.attachConstraint t₀ k₀).classes ↔
      ((c ∈ bld.classes ∧ t₀ ∉ c.members) ∨ c = attachedClass bld t₀ k₀) := by
  show c ∈ bld.classes.filter (fun c => decide (t₀ ∉ c.members))
      ++ [attachedClass bld t₀ k₀] ↔ _
  simp [List.mem_filter]

/-- The classes after a same-type `addRequirement`: the untouched classes
plus the merged class. -/
theorem mem_sameType_classes (bld : SigBuilder) (a₀ b₀ : Ty) (c : EquivClass) :
    c ∈ (bld.addRequirement (Requirement.sameType a₀ b₀)).classes ↔
      ((c ∈ bld.classes ∧ a₀ ∉ c.members ∧ b₀ ∉ c.members) ∨
       c = mergedClass bld a₀ b₀) := by
  show c ∈ bld.classes.filter (fun c => decide (a₀ ∉ c.members ∧ b₀ ∉ c.members))
      ++ [mergedClass bld a₀ b₀] ↔ _
  simp [List.mem_filter, and_assoc]

/-- The merged class's members are the two sides' classes' members. -/
theorem mergedClass_members (bld : SigBuilder) (a b : Ty) :
    (mergedClass bld a b).members =
      ((classOf a bld.classes).getD (singletonClass a)).members
        ++ ((classOf b bld.classes).getD (singletonClass b)).members := rfl

/-- The merged class's constraints are the two sides' classes'
constraints. -/
theorem mergedClass_constraints (bld : SigBuilder) (a b : Ty) :
    (mergedClass bld a b).constraints =
      ((classOf a bld.classes).getD (singletonClass a)).constraints
        ++ ((classOf b bld.classes).getD (singletonClass b)).constraints := rfl

/-- A constraint-form requirement lies in the extended list iff it lies in
the old list or is the appended one. -/
theorem reqOf_mem_append (l : List Requirement) (t₀ u : Ty)
    (k₀ k : ClassConstraint) :
    reqOfConstraint u k ∈ l ++ [reqOfConstraint t₀ k₀] ↔
      (reqOfConstraint u k ∈ l ∨ (u = t₀ ∧ k = k₀)) := by
  simp only [List.mem_append, List.mem_singleton]
  constructor
  · rintro (h | h)
    · exact Or.inl h
    · exact Or.inr (reqOfConstraint_inj u t₀ k k₀ h)
  · rintro (h | ⟨rfl, rfl⟩)
    · exact Or.inl h
    · exact Or.inr rfl

/-- A constraint-form requirement is unaffected by appending a same-type
requirement. -/
theorem reqOf_mem_append_sameType (l : List Requirement) (a₀ b₀ u : Ty)
    (k : ClassConstraint) :
    reqOfConstraint u k ∈ l ++ [Requirement.sameType a₀ b₀] ↔
      reqOfConstraint u k ∈ l := by
  simp only [List.mem_append, List.mem_singleton]
  constructor
  · rintro (h | h)
    · exact h
    · exact absurd h.symm (sameType_ne_reqOfConstraint a₀ b₀ u k)
  · exact fun h => Or.inl h

/-- `attachConstraint` preserves the build invariant. -/
theorem buildGood_attach (l : List Requirement) (bld : SigBuilder)
    (hg : BuildGood l bld) (t₀ : Ty) (k₀ : ClassConstraint) :
    BuildGood (l ++ [reqOfConstraint t₀ k₀]) (bld.attachConstraint t₀ k₀) := by
  have hctm : ∀ x, x ∈ (attachedClass bld t₀ k₀).members ↔
      Relation.EqvGen (stEdge l) t₀ x := fun x => getD_members_iff l bld hg t₀ x
  have hctk : ∀ k, k ∈ ((classOf t₀ bld.classes).getD (singletonClass t₀)).constraints ↔
      attC bld t₀ k := fun k => getD_constraints_iff l bld hg t₀ k
  have hEq : ∀ a b, Relation.EqvGen (stEdge (l ++ [reqOfConstraint t₀ k₀])) a b ↔
      Relation.EqvGen (stEdge l) a b :=
    eqvGen_congr _ _ (fun a b => stEdge_append_constraint l t₀ k₀ a b)
  refine ⟨?_, ?_, ?_, ?_⟩
  · intro c1 hc1 c2 hc2 hsh
    obtain ⟨u, hu1, hu2⟩ := hsh
    rcases (mem_attach_classes bld t₀ k₀ c1).mp hc1 with ⟨hb1, hn1⟩ | rfl
    · rcases (mem_attach_classes bld t₀ k₀ c2).mp hc2 with ⟨hb2, hn2⟩ | rfl
      · exact hg.disjoint c1 hb1 c2 hb2 ⟨u, hu1, hu2⟩
      · exact absurd (mem_class_of_eqvGen l bld hg t₀ u c1 hb1 hu1 ((hctm u).mp hu2)) hn1
    · rcases (mem_attach_classes bld t₀ k₀ c2).mp hc2 with ⟨hb2, hn2⟩ | rfl
      · exact absurd (mem_class_of_eqvGen l bld hg t₀ u c2 hb2 hu2 ((hctm u).mp hu1)) hn2
      · rfl
  · intro c hc
    rcases (mem_attach_classes bld t₀ k₀ c).mp hc with ⟨hb, -⟩ | rfl
    · exact hg.nonempty c hb
    · exact getD_members_ne_nil l bld hg t₀
  · intro x y
    rw [mentioned_append_constraint l t₀ k₀ x, mentioned_append_constraint l t₀ k₀ y,
        hEq x y]
    have hdata : relB (bld.attachConstraint t₀ k₀) x y ↔
        (relB bld x y ∨
         (Relation.EqvGen (stEdge l) t₀ x ∧ Relation.EqvGen (stEdge l) t₀ y)) := by
      unfold relB
      constructor
      · rintro ⟨c, hc, hx, hy⟩
        rcases (mem_attach_classes bld t₀ k₀ c).mp hc with ⟨hb, -⟩ | rfl
        · exact Or.inl ⟨c, hb, hx, hy⟩
        · exact Or.inr ⟨(hctm x).mp hx, (hctm y).mp hy⟩
      · rintro (⟨c, hc, hx, hy⟩ | ⟨hx, hy⟩)
        · by_cases ht₀ : t₀ ∈ c.members
          · have hx' : Relation.EqvGen (stEdge l) t₀ x :=
              ((hg.relSpec t₀ x).mp ⟨c, hc, ht₀, hx⟩).2.2
            have hy' : Relation.EqvGen (stEdge l) t₀ y :=
              ((hg.relSpec t₀ y).mp ⟨c, hc, ht₀, hy⟩).2.2
            exact ⟨attachedClass bld t₀ k₀,
                   (mem_attach_classes bld t₀ k₀ _).mpr (Or.inr rfl),
                   (hctm x).mpr hx', (hctm y).mpr hy'⟩
          · exact ⟨c, (mem_attach_classes bld t₀ k₀ c).mpr (Or.inl ⟨hc, ht₀⟩), hx, hy⟩
        · exact ⟨attachedClass bld t₀ k₀,
                 (mem_attach_classes bld t₀ k₀ _).mpr (Or.inr rfl),
                 (hctm x).mpr hx, (hctm y).mpr hy⟩
    rw [hdata]
    constructor
    · rintro (hrel | ⟨hx, hy⟩)
      · obtain ⟨hmx, hmy, hxy⟩ := (hg.relSpec x y).mp hrel
        exact ⟨Or.inl hmx, Or.inl hmy, hxy⟩
      · refine ⟨?_, ?_, eqvGen_trans (eqvGen_symm hx) hy⟩
        · rcases eqvGen_ment_both l t₀ x hx with h | ⟨-, hm⟩
          · exact Or.inr h.symm
          · exact Or.inl hm
        · rcases eqvGen_ment_both l t₀ y hy with h | ⟨-, hm⟩
          · exact Or.inr h.symm
          · exact Or.inl hm
    · rintro ⟨hx', hy', hxy⟩
      rcases hx' with hmx | rfl
      · rcases hy' with hmy | rfl
        · exact Or.inl ((hg.relSpec x y).mpr ⟨hmx, hmy, hxy⟩)
        · exact Or.inr ⟨eqvGen_symm hxy, Relation.EqvGen.refl _⟩
      · exact Or.inr ⟨Relation.EqvGen.refl _, hxy⟩
  · intro x k
    simp only [hEq]
    have hdata : attC (bld.attachConstraint t₀ k₀) x k ↔
        (attC bld x k ∨ (k = k₀ ∧ Relation.EqvGen (stEdge l) t₀ x)) := by
      unfold attC
      constructor
      · rintro ⟨c, hc, hxc, hkc⟩
        rcases (mem_attach_classes bld t₀ k₀ c).mp hc with ⟨hb, -⟩ | rfl
        · exact Or.inl ⟨c, hb, hxc, hkc⟩
        · have hx' : Relation.EqvGen (stEdge l) t₀ x := (hctm x).mp hxc
          rcases List.mem_append.mp hkc with hk | hk
          · obtain ⟨u, hu, hux⟩ := (hg.attSpec t₀ k).mp ((hctk k).mp hk)
            exact Or.inl ((hg.attSpec x k).mpr ⟨u, hu, eqvGen_trans hux hx'⟩)
          · rw [List.mem_singleton] at hk
            exact Or.inr ⟨hk, hx'⟩
      · rintro (hatt | ⟨hkk, hx'⟩)
        · obtain ⟨c, hc, hxc, hkc⟩ := hatt
          by_cases ht₀ : t₀ ∈ c.members
          · have hx' : Relation.EqvGen (stEdge l) t₀ x :=
              ((hg.relSpec t₀ x).mp ⟨c, hc, ht₀, hxc⟩).2.2
            refine ⟨attachedClass bld t₀ k₀,
                    (mem_attach_classes bld t₀ k₀ _).mpr (Or.inr rfl),
                    (hctm x).mpr hx', ?_⟩
            exact List.mem_append.mpr (Or.inl ((hctk k).mpr ⟨c, hc, ht₀, hkc⟩))
          · exact ⟨c, (mem_attach_classes bld t₀ k₀ c).mpr (Or.inl ⟨hc, ht₀⟩), hxc, hkc⟩
        · refine ⟨attachedClass bld t₀ k₀,
                  (mem_attach_classes bld t₀ k₀ _).mpr (Or.inr rfl),
                  (hctm x).mpr hx', ?_⟩
          exact List.mem_append.mpr (Or.inr (List.mem_singleton.mpr hkk))
    rw [hdata]
    constructor
    · rintro (hatt | ⟨hkk, hx'⟩)
      · obtain ⟨u, hu, hux⟩ := (hg.attSpec x k).mp hatt
        exact ⟨u, (reqOf_mem_append l t₀ u k₀ k).mpr (Or.inl hu), hux⟩
      · exact ⟨t₀, (reqOf_mem_append l t₀ t₀ k₀ k).mpr (Or.inr ⟨rfl, hkk⟩), hx'⟩
    · rintro ⟨u, hu, hux⟩
      rcases (reqOf_mem_append l t₀ u k₀ k).mp hu with h | ⟨rfl, rfl⟩
      · exact Or.inl ((hg.attSpec x k).mpr ⟨u, h, hux⟩)
      · exact Or.inr ⟨rfl, hux⟩

/-- A same-type `addRequirement` preserves the build invariant. -/
theorem buildGood_sameType (l : List Requirement) (bld : SigBuilder)
    (hg : BuildGood l bld) (a₀ b₀ : Ty) :
    BuildGood (l ++ [Requirement.sameType a₀ b₀])
      (bld.addRequirement (Requirement.sameType a₀ b₀)) := by
  have hma : ∀ x, x ∈ (mergedClass bld a₀ b₀).members ↔
      (Relation.EqvGen (stEdge l) a₀ x ∨ Relation.EqvGen (stEdge l) b₀ x) := by
    intro x
    rw [mergedClass_members, List.mem_append, getD_members_iff l bld hg a₀ x,
        getD_members_iff l bld hg b₀ x]
  have hmk : ∀ k, k ∈ (mergedClass bld a₀ b₀).constraints ↔
      (attC bld a₀ k ∨ attC bld b₀ k) := by
    intro k
    rw [mergedClass_constraints, List.mem_append,
        getD_constraints_iff l bld hg a₀ k, getD_constraints_iff l bld hg b₀ k]
  have hEq : ∀ u v, Relation.EqvGen (stEdge (l ++ [Requirement.sameType a₀ b₀])) u v ↔
      (Relation.EqvGen (stEdge l) u v ∨
       (Relation.EqvGen (stEdge l) u a₀ ∧ Relation.EqvGen (stEdge l) b₀ v) ∨
       (Relation.EqvGen (stEdge l) u b₀ ∧ Relation.EqvGen (stEdge l) a₀ v)) := by
    intro u v
    rw [eqvGen_congr _ _ (fun p q => stEdge_append_sameType l a₀ b₀ p q) u v]
    exact eqvGen_extend (stEdge l) a₀ b₀ u v
  have hme : ∀ t x, Relation.EqvGen (stEdge l) t x →
      (x = t ∨ mentionedIn l x) := by
    intro t x h
    rcases eqvGen_ment_both l t x h with h1 | ⟨-, h2⟩
    · exact Or.inl h1.symm
    · exact Or.inr h2
  refine ⟨?_, ?_, ?_, ?_⟩
  · intro c1 hc1 c2 hc2 hsh
    obtain ⟨u, hu1, hu2⟩ := hsh
    rcases (mem_sameType_classes bld a₀ b₀ c1).mp hc1 with ⟨hb1, hna1, hnb1⟩ | rfl
    · rcases (mem_sameType_classes bld a₀ b₀ c2).mp hc2 with ⟨hb2, hna2, hnb2⟩ | rfl
      · exact hg.disjoint c1 hb1 c2 hb2 ⟨u, hu1, hu2⟩
      · rcases (hma u).mp hu2 with hG | hG
        · exact absurd (mem_class_of_eqvGen l bld hg a₀ u c1 hb1 hu1 hG) hna1
        · exact absurd (mem_class_of_eqvGen l bld hg b₀ u c1 hb1 hu1 hG) hnb1
    · rcases (mem_sameType_classes bld a₀ b₀ c2).mp hc2 with ⟨hb2, hna2, hnb2⟩ | rfl
      · rcases (hma u).mp hu1 with hG | hG
        · exact absurd (mem_class_of_eqvGen l bld hg a₀ u c2 hb2 hu2 hG) hna2
        · exact absurd (mem_class_of_eqvGen l bld hg b₀ u c2 hb2 hu2 hG) hnb2
      · rfl
  · intro c hc
    rcases (mem_sameType_classes bld a₀ b₀ c).mp hc with ⟨hb, -, -⟩ | rfl
    · exact hg.nonempty c hb
    · intro hnil
      have ha : a₀ ∈ (mergedClass bld a₀ b₀).members :=
        (hma a₀).mpr (Or.inl (Relation.EqvGen.refl a₀))
      rw [hnil] at ha
      exact absurd ha (List.not_mem_nil a₀)
  · intro x y
    rw [mentioned_append_sameType l a₀ b₀ x, mentioned_append_sameType l a₀ b₀ y,
        hEq x y]
    have hdata : relB (bld.addRequirement (Requirement.sameType a₀ b₀)) x y ↔
        (relB bld x y ∨
         ((Relation.EqvGen (stEdge l) a₀ x ∨ Relation.EqvGen (stEdge l) b₀ x) ∧
          (Relation.EqvGen (stEdge l) a₀ y ∨ Relation.EqvGen (stEdge l) b₀ y))) := by
      unfold relB
      constructor
      · rintro ⟨c, hc, hx, hy⟩
        rcases (mem_sameType_classes bld a₀ b₀ c).mp hc with ⟨hb, -, -⟩ | rfl
        · exact Or.inl ⟨c, hb, hx, hy⟩
        · exact Or.inr ⟨(hma x).mp hx, (hma y).mp hy⟩
      · rintro (⟨c, hc, hx, hy⟩ | ⟨hx, hy⟩)
        · by_cases ha : a₀ ∈ c.members
          · have hx' : Relation.EqvGen (stEdge l) a₀ x :=
              ((hg.relSpec a₀ x).mp ⟨c, hc, ha, hx⟩).2.2
            have hy' : Relation.EqvGen (stEdge l) a₀ y :=
              ((hg.relSpec a₀ y).mp ⟨c, hc, ha, hy⟩).2.2
            exact ⟨mergedClass bld a₀ b₀,
                   (mem_sameType_classes bld a₀ b₀ _).mpr (Or.inr rfl),
                   (hma x).mpr (Or.inl hx'), (hma y).mpr (Or.inl hy')⟩
          · by_cases hb : b₀ ∈ c.members
            · have hx' : Relation.EqvGen (stEdge l) b₀ x :=
                ((hg.relSpec b₀ x).mp ⟨c, hc, hb, hx⟩).2.2
              have hy' : Relation.EqvGen (stEdge l) b₀ y :=
                ((hg.relSpec b₀ y).mp ⟨c, hc, hb, hy⟩).2.2
              exact ⟨mergedClass bld a₀ b₀,
                     (mem_sameType_classes bld a₀ b₀ _).mpr (Or.inr rfl),
                     (hma x).mpr (Or.inr hx'), (hma y).mpr (Or.inr hy')⟩
            · exact ⟨c, (mem_sameType_classes bld a₀ b₀ c).mpr
                       (Or.inl ⟨hc, ha, hb⟩), hx, hy⟩
        · exact ⟨mergedClass bld a₀ b₀,
                 (mem_sameType_classes bld a₀ b₀ _).mpr (Or.inr rfl),
                 (hma x).mpr hx, (hma y).mpr hy⟩
    rw [hdata]
    constructor
    · rintro (hrel | ⟨hx, hy⟩)
      · obtain ⟨hmx, hmy, hxy⟩ := (hg.relSpec x y).mp hrel
        exact ⟨Or.inl hmx, Or.inl hmy, Or.inl hxy⟩
      · refine ⟨?_, ?_, ?_⟩
        · rcases hx with h | h
          · rcases hme a₀ x h with h1 | h1
            · exact Or.inr (Or.inl h1)
            · exact Or.inl h1
          · rcases hme b₀ x h with h1 | h1
            · exact Or.inr (Or.inr h1)
            · exact Or.inl h1
        · rcases hy with h | h
          · rcases hme a₀ y h with h1 | h1
            · exact Or.inr (Or.inl h1)
            · exact Or.inl h1
          · rcases hme b₀ y h with h1 | h1
            · exact Or.inr (Or.inr h1)
            · exact Or.inl h1
        · rcases hx with h | h <;> rcases hy with h2 | h2
          · exact Or.inl (eqvGen_trans (eqvGen_symm h) h2)
          · exact Or.inr (Or.inl ⟨eqvGen_symm h, h2⟩)
          · exact Or.inr (Or.inr ⟨eqvGen_symm h, h2⟩)
          · exact Or.inl (eqvGen_trans (eqvGen_symm h) h2)
    · rintro ⟨hx', hy', hG⟩
      rcases hG with hxy | ⟨h1, h2⟩ | ⟨h1, h2⟩
      · by_cases hax : Relation.EqvGen (stEdge l) a₀ x ∨ Relation.EqvGen (stEdge l) b₀ x
        · refine Or.inr ⟨hax, ?_⟩
          rcases hax with h | h
          · exact Or.inl (eqvGen_trans h hxy)
          · exact Or.inr (eqvGen_trans h hxy)
        · refine Or.inl ((hg.relSpec x y).mpr ⟨?_, ?_, hxy⟩)
          · rcases hx' with h | h | h
            · exact h
            · exact absurd (Or.inl (by rw [h]; exact Relation.EqvGen.refl a₀)) hax
            · exact absurd (Or.inr (by rw [h]; exact Relation.EqvGen.refl b₀)) hax
          · rcases hy' with h | h | h
            · exact h
            · rw [h] at hxy
              exact absurd (Or.inl (eqvGen_symm hxy)) hax
            · rw [h] at hxy
              exact absurd (Or.inr (eqvGen_symm hxy)) hax
      · exact Or.inr ⟨Or.inl (eqvGen_symm h1), Or.inr h2⟩
      · exact Or.inr ⟨Or.inr (eqvGen_symm h1), Or.inl h2⟩
  · intro x k
    simp only [hEq]
    have hdata : attC (bld.addRequirement (Requirement.sameType a₀ b₀)) x k ↔
        (attC bld x k ∨
         ((Relation.EqvGen (stEdge l) a₀ x ∨ Relation.EqvGen (stEdge l) b₀ x) ∧
          (attC bld a₀ k ∨ attC bld b₀ k))) := by
      unfold attC
      constructor
      · rintro ⟨c, hc, hx, hk⟩
        rcases (mem_sameType_classes bld a₀ b₀ c).mp hc with ⟨hb, -, -⟩ | rfl
        · exact Or.inl ⟨c, hb, hx, hk⟩
        · exact Or.inr ⟨(hma x).mp hx, (hmk k).mp hk⟩
      · rintro (⟨c, hc, hx, hk⟩ | ⟨hx, hk⟩)
        · by_cases ha : a₀ ∈ c.members
          · have hx' : Relation.EqvGen (stEdge l) a₀ x :=
              ((hg.relSpec a₀ x).mp ⟨c, hc, ha, hx⟩).2.2
            exact ⟨mergedClass bld a₀ b₀,
                   (mem_sameType_classes bld a₀ b₀ _).mpr (Or.inr rfl),
                   (hma x).mpr (Or.inl hx'), (hmk k).mpr (Or.inl ⟨c, hc, ha, hk⟩)⟩
          · by_cases hb : b₀ ∈ c.members
            · have hx' : Relation.EqvGen (stEdge l) b₀ x :=
                ((hg.relSpec b₀ x).mp ⟨c, hc, hb, hx⟩).2.2
              exact ⟨mergedClass bld a₀ b₀,
                     (mem_sameType_classes bld a₀ b₀ _).mpr (Or.inr rfl),
                     (hma x).mpr (Or.inr hx'), (hmk k).mpr (Or.inr ⟨c, hc, hb, hk⟩)⟩
            · exact ⟨c, (mem_sameType_classes bld a₀ b₀ c).mpr
                       (Or.inl ⟨hc, ha, hb⟩), hx, hk⟩
        · exact ⟨mergedClass bld a₀ b₀,
                 (mem_sameType_classes bld a₀ b₀ _).mpr (Or.inr rfl),
                 (hma x).mpr hx, (hmk k).mpr hk⟩
    rw [hdata]
    constructor
    · rintro (hatt | ⟨hx, hk⟩)
      · obtain ⟨u, hu, hux⟩ := (hg.attSpec x k).mp hatt
        exact ⟨u, (reqOf_mem_append_sameType l a₀ b₀ u k).mpr hu, Or.inl hux⟩
      · rcases hk with hk | hk
        · obtain ⟨u, hu, hua⟩ := (hg.attSpec a₀ k).mp hk
          rcases hx with hx | hx
          · exact ⟨u, (reqOf_mem_append_sameType l a₀ b₀ u k).mpr hu,
                   Or.inl (eqvGen_trans hua hx)⟩
          · exact ⟨u, (reqOf_mem_append_sameType l a₀ b₀ u k).mpr hu,
                   Or.inr (Or.inl ⟨hua, hx⟩)⟩
        · obtain ⟨u, hu, hub⟩ := (hg.attSpec b₀ k).mp hk
          rcases hx with hx | hx
          · exact ⟨u, (reqOf_mem_append_sameType l a₀ b₀ u k).mpr hu,
                   Or.inr (Or.inr ⟨hub, hx⟩)⟩
          · exact ⟨u, (reqOf_mem_append_sameType l a₀ b₀ u k).mpr hu,
                   Or.inl (eqvGen_trans hub hx)⟩
    · rintro ⟨u, hu, hux⟩
      have hu' : reqOfConstraint u k ∈ l :=
        (reqOf_mem_append_sameType l a₀ b₀ u k).mp hu
      rcases hux with h | ⟨h1, h2⟩ | ⟨h1, h2⟩
      · by_cases hax : Relation.EqvGen (stEdge l) a₀ x ∨ Relation.EqvGen (stEdge l) b₀ x
        · refine Or.inr ⟨hax, ?_⟩
          rcases hax with hA | hB
          · exact Or.inl ((hg.attSpec a₀ k).mpr ⟨u, hu', eqvGen_trans h (eqvGen_symm hA)⟩)
          · exact Or.inr ((hg.attSpec b₀ k).mpr ⟨u, hu', eqvGen_trans h (eqvGen_symm hB)⟩)
        · exact Or.inl ((hg.attSpec x k).mpr ⟨u, hu', h⟩)
      · exact Or.inr ⟨Or.inr h2, Or.inl ((hg.attSpec a₀ k).mpr ⟨u, hu', h1⟩)⟩
      · exact Or.inr ⟨Or.inl h2, Or.inr ((hg.attSpec b₀ k).mpr ⟨u, hu', h1⟩)⟩

/-- One `addRequirement` step preserves the build invariant. -/
theorem buildGood_step (l : List Requirement) (bld : SigBuilder)
    (hg : BuildGood l bld) : ∀ r : Requirement,
      BuildGood (l ++ [r]) (bld.addRequirement r)
  | .sameType a b => buildGood_sameType l bld hg a b
  | .conformance t p => buildGood_attach l bld hg t (.conf p)
  | .superclass t s => buildGood_attach l bld hg t (.sup s)
  | .layout t lc => buildGood_attach l bld hg t (.lay lc)

/-- The empty builder satisfies the invariant for the empty list. -/
theorem buildGood_nil : BuildGood [] ⟨[]⟩ := by
  refine ⟨?_, ?_, ?_, ?_⟩
  · intro c1 hc1 c2 hc2 hsh
    exact absurd hc1 (List.not_mem_nil c1)
  · intro c hc
    exact absurd hc (List.not_mem_nil c)
  · intro x y
    constructor
    · rintro ⟨c, hc, -⟩
      exact absurd hc (List.not_mem_nil c)
    · rintro ⟨hm, -, -⟩
      rcases hm with ⟨k, hk⟩ | ⟨u, hu⟩ | ⟨u, hu⟩
      · exact absurd hk (List.not_mem_nil _)
      · exact absurd hu (List.not_mem_nil _)
      · exact absurd hu (List.not_mem_nil _)
  · intro t k
    constructor
    · rintro ⟨c, hc, -⟩
      exact absurd hc (List.not_mem_nil c)
    · rintro ⟨u, hu, -⟩
      exact absurd hu (List.not_mem_nil _)

/-- The builder reached from any requirement list satisfies the
invariant. -/
theorem buildGood_buildFrom (l : List Requirement) : BuildGood l (buildFrom l) := by
  induction l using List.reverseRecOn with
  | nil => exact buildGood_nil
  | append_singleton l r ih =>
    have h : buildFrom (l ++ [r]) = (buildFrom l).addRequirement r := by
      unfold buildFrom
      rw [List.foldl_append, List.foldl_cons, List.foldl_nil]
    rw [h]
    exact buildGood_step l (buildFrom l) ih r

/-- Under `BuildGood`, the representative of any member of a class is the
preference-minimum of that class. -/
theorem repOf_eq_of_mem (l : List Requirement) (bld : SigBuilder)
    (hg : BuildGood l bld) (c : EquivClass) (hc : c ∈ bld.classes) (t : Ty)
    (ht : t ∈ c.members) : bld.repOf t = prefMin c.members := by
  unfold SigBuilder.repOf
  rw [classOf_eq_of_mem t bld hg.disjoint c hc ht, Option.getD_some]

/-- Membership in the emitted pre-canonical requirement pool: a constraint
requirement expressed on the representative of a class it is attached to,
or a same-type requirement binding a non-representative member to its
representative. -/
theorem emit_mem_iff (l : List Requirement) (bld : SigBuilder)
    (hg : BuildGood l bld) (r : Requirement) :
    r ∈ (bld.classes.map EquivClass.emit).flatten ↔
      ((∃ t k, attC bld t k ∧ r = reqOfConstraint (bld.repOf t) k) ∨
       (∃ m, relB bld m m ∧ m ≠ bld.repOf m ∧
         r = Requirement.sameType (bld.repOf m) m)) := by
  rw [List.mem_flatten]
  constructor
  · rintro ⟨e, he, hre⟩
    obtain ⟨c, hc, rfl⟩ := List.mem_map.mp he
    unfold EquivClass.emit at hre
    rcases List.mem_append.mp hre with hr | hr
    · obtain ⟨k, hk, rfl⟩ := List.mem_map.mp hr
      have hcm : c.members ≠ [] := hg.nonempty c hc
      have hpm : prefMin c.members ∈ c.members := (prefMin_spec c.members hcm).1
      refine Or.inl ⟨prefMin c.members, k, ⟨c, hc, hpm, hk⟩, ?_⟩
      rw [repOf_eq_of_mem l bld hg c hc (prefMin c.members) hpm]
    · obtain ⟨m, hm, rfl⟩ := List.mem_map.mp hr
      obtain ⟨hmm, hne⟩ := List.mem_filter.mp hm
      have hrep : bld.repOf m = prefMin c.members :=
        repOf_eq_of_mem l bld hg c hc m hmm
      refine Or.inr ⟨m, ⟨c, hc, hmm, hmm⟩, ?_, ?_⟩
      · rw [hrep]
        exact of_decide_eq_true hne
      · rw [hrep]
  · rintro (⟨t, k, ⟨c, hc, ht, hk⟩, rfl⟩ | ⟨m, ⟨c, hc, hm, -⟩, hne, rfl⟩)
    · refine ⟨EquivClass.emit c, List.mem_map.mpr ⟨c, hc, rfl⟩, ?_⟩
      unfold EquivClass.emit
      rw [repOf_eq_of_mem l bld hg c hc t ht]
      exact List.mem_append.mpr (Or.inl (List.mem_map.mpr ⟨k, hk, rfl⟩))
    · refine ⟨EquivClass.emit c, List.mem_map.mpr ⟨c, hc, rfl⟩, ?_⟩
      unfold EquivClass.emit
      have hrep : bld.repOf m = prefMin c.members :=
        repOf_eq_of_mem l bld hg c hc m hm
      rw [hrep]
      refine List.mem_append.mpr (Or.inr (List.mem_map.mpr ⟨m, ?_, rfl⟩))
      refine List.mem_filter.mpr ⟨hm, ?_⟩
      rw [← hrep]
      exact decide_eq_true hne

/-- Builders reached from lists with equal membership relate the same
types. -/
theorem buildFrom_relB_congr (l₁ l₂ : List Requirement)
    (h : ∀ r, r ∈ l₁ ↔ r ∈ l₂) :
    ∀ x y, relB (buildFrom l₁) x y ↔ relB (buildFrom l₂) x y := by
  intro x y
  rw [(buildGood_buildFrom l₁).relSpec x y, (buildGood_buildFrom l₂).relSpec x y]
  have hst : ∀ a b, stEdge l₁ a b ↔ stEdge l₂ a b := by
    intro a b
    unfold stEdge
    exact h _
  have hm : ∀ t, mentionedIn l₁ t ↔ mentionedIn l₂ t := by
    intro t
    unfold mentionedIn
    simp only [h]
  rw [hm x, hm y, eqvGen_congr _ _ hst x y]

/-- Builders reached from lists with equal membership attach the same
constraints. -/
theorem buildFrom_attC_congr (l₁ l₂ : List Requirement)
    (h : ∀ r, r ∈ l₁ ↔ r ∈ l₂) :
    ∀ t k, attC (buildFrom l₁) t k ↔ attC (buildFrom l₂) t k := by
  intro t k
  rw [(buildGood_buildFrom l₁).attSpec t k, (buildGood_buildFrom l₂).attSpec t k]
  have hst : ∀ a b, stEdge l₁ a b ↔ stEdge l₂ a b := by
    intro a b
    unfold stEdge
    exact h _
  simp only [h, eqvGen_congr _ _ hst]

/-- Builders reached from lists with equal membership choose the same
representatives. -/
theorem buildFrom_repOf_congr (l₁ l₂ : List Requirement)
    (h : ∀ r, r ∈ l₁ ↔ r ∈ l₂) :
    ∀ t, (buildFrom l₁).repOf t = (buildFrom l₂).repOf t := by
  intro t
  unfold SigBuilder.repOf
  apply prefMin_congr
  · exact getD_members_ne_nil l₁ (buildFrom l₁) (buildGood_buildFrom l₁) t
  · exact getD_members_ne_nil l₂ (buildFrom l₂) (buildGood_buildFrom l₂) t
  · intro x
    rw [getD_members_iff l₁ (buildFrom l₁) (buildGood_buildFrom l₁) t x,
        getD_members_iff l₂ (buildFrom l₂) (buildGood_buildFrom l₂) t x]
    have hst : ∀ a b, stEdge l₁ a b ↔ stEdge l₂ a b := by
      intro a b
      unfold stEdge
      exact h _
    exact eqvGen_congr _ _ hst t x

/-- Builders reached from lists with equal membership emit the same
pre-canonical requirement pool. -/
theorem emit_pool_congr (l₁ l₂ : List Requirement)
    (h : ∀ r, r ∈ l₁ ↔ r ∈ l₂) :
    ∀ r, r ∈ ((buildFrom l₁).classes.map EquivClass.emit).flatten ↔
      r ∈ ((buildFrom l₂).classes.map EquivClass.emit).flatten := by
  intro r
  rw [emit_mem_iff l₁ (buildFrom l₁) (buildGood_buildFrom l₁) r,
      emit_mem_iff l₂ (buildFrom l₂) (buildGood_buildFrom l₂) r]
  simp only [buildFrom_attC_congr l₁ l₂ h, buildFrom_relB_congr l₁ l₂ h,
             buildFrom_repOf_congr l₁ l₂ h]

/-- Lists with equal membership canonicalize (sort + dedup) to the same
list. -/
theorem canonical_ext (l₁ l₂ : List Requirement) (h : ∀ r, r ∈ l₁ ↔ r ∈ l₂) :
    (l₁.insertionSort reqLE).dedup = (l₂.insertionSort reqLE).dedup := by
  haveI : IsTotal Requirement reqLE := ⟨fun a b => Nat.le_total _ _⟩
  haveI : IsTrans Requirement reqLE := ⟨fun a b c h1 h2 => Nat.le_trans h1 h2⟩
  haveI : IsAntisymm Requirement reqLE :=
    ⟨fun a b h1 h2 => encodeReq_injective a b (Nat.le_antisymm h1 h2)⟩
  have hs1 : List.Sorted reqLE ((l₁.insertionSort reqLE).dedup) :=
    List.Pairwise.sublist (List.dedup_sublist _) (List.sorted_insertionSort reqLE l₁)
  have hs2 : List.Sorted reqLE ((l₂.insertionSort reqLE).dedup) :=
    List.Pairwise.sublist (List.dedup_sublist _) (List.sorted_insertionSort reqLE l₂)
  have hperm : List.Perm ((l₁.insertionSort reqLE).dedup)
      ((l₂.insertionSort reqLE).dedup) := by
    apply (List.perm_ext_iff_of_nodup (List.nodup_dedup _) (List.nodup_dedup _)).mpr
    intro r
    rw [List.mem_dedup, List.mem_dedup, (List.perm_insertionSort reqLE l₁).mem_iff,
        (List.perm_insertionSort reqLE l₂).mem_iff]
    exact h r
  exact List.eq_of_perm_of_sorted hperm hs1 hs2

/-- C8.  For every multiset of requirements, any two permutations of the
`addRequirement` calls feeding the builder produce, via
`computeGenericSignature`, structurally identical minimized signatures:
the incremental merging into equivalence classes, the choice of canonical
representatives, and the canonicalized, minimized output are fixed
functions of the requirement multiset. -/
theorem computeGenericSignature_order_independent :
    ∀ (l₁ l₂ : List Requirement), List.Perm l₁ l₂ →
      (buildFrom l₁).computeGenericSignature
        = (buildFrom l₂).computeGenericSignature := by
  intro l₁ l₂ hp
  unfold SigBuilder.computeGenericSignature
  exact canonical_ext _ _ (emit_pool_congr l₁ l₂ (fun r => hp.mem_iff))

/-- C8 witness: a permutation of three `addRequirement` calls — a
same-type requirement and a conformance stated on each of its two sides —
produces the same canonical signature; that signature contains a single
conformance, expressed on the canonical representative, so the
requirement implied transitively through the same-type constraint has
been dropped. -/
theorem computeGenericSignature_order_independent_witness :
    List.Perm
      [Requirement.sameType (.param 0 0) (.param 0 1),
       Requirement.conformance (.param 0 0) 3,
       Requirement.conformance (.param 0 1) 3]
      [Requirement.conformance (.param 0 1) 3,
       Requirement.sameType (.param 0 0) (.param 0 1),
       Requirement.conformance (.param 0 0) 3] ∧
    (buildFrom [Requirement.sameType (.param 0 0) (.param 0 1),
                Requirement.conformance (.param 0 0) 3,
                Requirement.conformance (.param 0 1) 3]).computeGenericSignature
      = (buildFrom [Requirement.conformance (.param 0 1) 3,
                    Requirement.sameType (.param 0 0) (.param 0 1),
                    Requirement.conformance (.param 0 0) 3]).computeGenericSignature ∧
    (buildFrom [Requirement.sameType (.param 0 0) (.param 0 1),
                Requirement.conformance (.param 0 0) 3,
                Requirement.conformance (.param 0 1) 3]).computeGenericSignature
      = [Requirement.conformance (.param 0 0) 3,
         Requirement.sameType (.param 0 0) (.param 0 1)] :=
  ⟨by decide, computeGenericSignature_order_independent _ _ (by decide), by decide⟩

/-! ## The closing assertion of validateGenericFuncOrSubscriptSignature -/

/-- Interface-stage resolution leaves no unresolved dependent member. -/
theorem interfaceResolve_no_unresolved (r : Nat → Option Nat) :
    ∀ t : Ty, findUnresolvedDepMember (interfaceResolveTy r t) = false := by
  intro t
  induction t with
  | param d i => simp [interfaceResolveTy, findUnresolvedDepMember]
  | depMember b a ih => simp [interfaceResolveTy, findUnresolvedDepMember, ih]
  | unresolvedDepMember b n ih =>
    cases hr : r n <;> simp [interfaceResolveTy, hr, findUnresolvedDepMember, ih]
  | protoTy p => simp [interfaceResolveTy, findUnresolvedDepMember]
  | nominal n => simp [interfaceResolveTy, findUnresolvedDepMember]
  | app f a ihf iha =>
    simp [interfaceResolveTy, findUnresolvedDepMember, ihf, iha]
  | archetype n => simp [interfaceResolveTy, findUnresolvedDepMember]
  | errorTy => simp [interfaceResolveTy, findUnresolvedDepMember]

/-- Unresolved members of an iterated application come from its
components. -/
theorem findUnresolved_foldr_app :
    ∀ (ps : List Ty) (r : Ty),
      findUnresolvedDepMember (ps.foldr Ty.app r)
        = (ps.any findUnresolvedDepMember || findUnresolvedDepMember r) := by
  intro ps r
  induction ps with
  | nil => simp
  | cons p pt ih => simp [findUnresolvedDepMember, ih, Bool.or_assoc]

/-- C9.  Every declaration that completes
`validateGenericFuncOrSubscriptSignature` (i.e. reaches the closing
assertion after the interface-mode pass) has an interface type with no
unresolved dependent member type, so the assertion holds on every path
reaching it. -/
theorem interfaceType_no_unresolved_dependent_member :
    ∀ (inp : VGFSInput) (t : Ty),
      validateGenericFuncOrSubscriptSignature inp = some t →
      findUnresolvedDepMember t = false := by
  intro inp t h
  by_cases hacc : inp.isAccessor = true
  · simp [validateGenericFuncOrSubscriptSignature, hacc] at h
  · simp only [validateGenericFuncOrSubscriptSignature, hacc, Bool.false_eq_true,
               if_false, Option.some.injEq] at h
    subst h
    unfold computeInterfaceType
    rw [findUnresolved_foldr_app]
    have hps : (inp.paramTypes.map (interfaceResolveTy inp.resolveAssoc)).any
        findUnresolvedDepMember = false := by
      rw [List.any_map]
      apply List.any_eq_false.mpr
      intro x _
      simp [Function.comp, interfaceResolve_no_unresolved]
    rw [hps]
    cases ho : inp.resultIsOpaqueRepr <;>
      simp [findUnresolvedDepMember, interfaceResolve_no_unresolved]

/-- C9 witness: a concrete declaration whose parameter and result types
contain unresolved dependent members (one resolvable, one not) completes
the pass with an interface type free of unresolved dependent members. -/
theorem interfaceType_no_unresolved_dependent_member_witness :
    validateGenericFuncOrSubscriptSignature inpVGFS
      = some (.app (.depMember (.param 0 0) 5)
              (.app (.nominal 1) .errorTy)) ∧
    findUnresolvedDepMember
      (Ty.app (.depMember (.param 0 0) 5) (.app (.nominal 1) .errorTy)) = false := by
  constructor
  · rfl
  · exact interfaceType_no_unresolved_dependent_member inpVGFS _ rfl
